import Mathlib

/-! Verification of the CrewLink signaling server (TypeScript sources
src/index.ts, src/room.ts, src/connection.ts) against its natural-language
specification.  The TypeScript code is shallowly embedded: JavaScript runtime
values occurring in protocol payloads are modelled by the inductive type
JVal (JSON numbers are modelled as integers; this protocol's payloads carry
only integers and strings), JavaScript object identity for Connection and
Room objects is modelled by keying a heap of Connection records by the
socket identifier and keying rooms by their room code, and a thrown
TypeError is modelled by a Boolean error flag in a handler's result.
Handlers mirror the socket listeners of src/index.ts statement by
statement. -/

set_option linter.unusedVariables false

namespace CrewLink

/-- JavaScript/JSON values as they occur in decoded payloads.  JSON numbers
are modelled as integers (the protocol's payloads carry only integers and
strings); strings are lists of Unicode scalar values. -/
inductive JVal where
  | null : JVal
  | bool (b : Bool) : JVal
  | num (n : Int) : JVal
  | str (s : List Char) : JVal
  | arr (xs : List JVal) : JVal
  | obj (kvs : List (List Char × JVal)) : JVal
deriving Repr, Inhabited

mutual

/-- Structural equality on modelled JSON values (used for Map keys, which
JavaScript compares with SameValueZero; on the primitives occurring here
that is value equality). -/
def jvalBeq : JVal → JVal → Bool
  | .null, .null => true
  | .bool a, .bool b => a == b
  | .num a, .num b => a == b
  | .str a, .str b => a == b
  | .arr a, .arr b => jvalBeqList a b
  | .obj a, .obj b => jvalBeqObj a b
  | _, _ => false

/-- Elementwise equality for arrays. -/
def jvalBeqList : List JVal → List JVal → Bool
  | [], [] => true
  | v1 :: t1, v2 :: t2 => jvalBeq v1 v2 && jvalBeqList t1 t2
  | _, _ => false

/-- Entrywise equality for objects. -/
def jvalBeqObj : List (List Char × JVal) → List (List Char × JVal) → Bool
  | [], [] => true
  | (k, v) :: xs, (k2, v2) :: ys => k == k2 && jvalBeq v v2 && jvalBeqObj xs ys
  | _, _ => false

end

instance : BEq JVal := ⟨jvalBeq⟩

/-- A JavaScript argument position: either a value or undefined (modelled
as none). -/
abbrev JsArg := Option JVal

/-- Truthiness of a JavaScript value in an argument position (undefined,
null, false, 0, and the empty string are falsy). -/
def jsTruthy : JsArg → Bool
  | none => false
  | some .null => false
  | some (.bool b) => b
  | some (.num n) => n != 0
  | some (.str s) => !s.isEmpty
  | some (.arr _) => true
  | some (.obj _) => true

/-- Falsiness of a defined JavaScript value, as in the handler's test
of the decoded data against required payloads. -/
def jsFalsy (v : JVal) : Bool := !jsTruthy (some v)

/-- A value is a JavaScript primitive (strict equality on primitives is
value equality; on objects and arrays it is reference identity). -/
def jsPrim : JVal → Bool
  | .null => true
  | .bool _ => true
  | .num _ => true
  | .str _ => true
  | .arr _ => false
  | .obj _ => false

/-- Strict equality between two argument values.  Two object or array
values decoded from distinct frames are distinct references, so strict
equality on them is false. -/
def jsStrictEq (a b : JsArg) : Bool :=
  match a, b with
  | none, none => true
  | some x, some y => if jsPrim x && jsPrim y then jvalBeq x y else false
  | _, _ => false

/-- Strict equality of a stored field against the literal null. -/
def jsStrictEqNull : JsArg → Bool
  | some .null => true
  | _ => false

/-- Loose equality of a stored field against null (true exactly for null
and undefined). -/
def jsLooseEqNull : JsArg → Bool
  | none => true
  | some .null => true
  | _ => false

/-- Big-endian decimal digits, with an explicit recursion budget (any
budget above the number suffices; structural recursion keeps the
definition computable by the kernel). -/
def natDigitsBEAux : Nat → Nat → List Nat
  | 0, _ => []
  | fuel + 1, n => if n < 10 then [n] else natDigitsBEAux fuel (n / 10) ++ [n % 10]

/-- Big-endian decimal digits of a natural number (most significant
first). -/
def natDigitsBE (n : Nat) : List Nat := natDigitsBEAux (n + 1) n

/-- The character for one decimal digit. -/
def digitChar (d : Nat) : Char := Char.ofNat (48 + d)

/-- Decimal string of a natural number, as a character list. -/
def natToChars (n : Nat) : List Char := (natDigitsBE n).map digitChar

/-- Decimal digit denoted by a character, if any. -/
def charDigit (c : Char) : Option Nat :=
  if 48 ≤ c.toNat ∧ c.toNat ≤ 57 then some (c.toNat - 48) else none

/-- Whether a character is a decimal digit. -/
def isDigitChar (c : Char) : Bool := (charDigit c).isSome

/-- Accumulating decimal evaluation of a digit string. -/
def digitsToNatAux : Nat → List Char → Option Nat
  | acc, [] => some acc
  | acc, c :: rest =>
    match charDigit c with
    | some d => digitsToNatAux (10 * acc + d) rest
    | none => none

/-- Value of a nonempty all-digit string. -/
def digitsToNat : List Char → Option Nat
  | [] => none
  | c :: rest =>
    match charDigit c with
    | some d => digitsToNatAux d rest
    | none => none

/-- ToNumber on a string, restricted to the optionally-signed decimal
integers this protocol can produce (none models NaN; the empty string
converts to 0; fractional, exponent, hex and whitespace forms are outside
the modelled value space). -/
def strToNumber : List Char → Option Int
  | [] => some 0
  | '-' :: rest => (digitsToNat rest).map (fun n => -(n : Int))
  | s => (digitsToNat s).map (fun n => (n : Int))

/-- ToNumber coercion used by relational comparison (none models NaN;
object and array operands would coerce through ToPrimitive, which no claim
reaches, and are modelled as NaN). -/
def jsToNumber : JVal → Option Int
  | .null => some 0
  | .bool b => some (if b then 1 else 0)
  | .num n => some n
  | .str s => strToNumber s
  | .arr _ => none
  | .obj _ => none

/-- Key lookup in a modelled JavaScript object. -/
def lookupKv (kvs : List (List Char × JVal)) (k : List Char) : Option JVal :=
  List.lookup k kvs

/-- The length property of a defined value: array and string lengths, a
literal length entry on an object, undefined otherwise. -/
def jsLengthProp : JVal → Option JVal
  | .arr xs => some (.num xs.length)
  | .str s => some (.num s.length)
  | .obj kvs => lookupKv kvs ['l', 'e', 'n', 'g', 't', 'h']
  | _ => none

/-- The optional chain on the decoded data: null short-circuits
to undefined, any other value yields its length property. -/
def jsOptLength : JVal → Option JVal
  | .null => none
  | v => jsLengthProp v

/-- The comparison of a possibly-undefined value against an integer
literal: undefined and NaN compare false, everything else compares by
ToNumber. -/
def jsLtNum (x : JsArg) (k : Int) : Bool :=
  match x with
  | none => false
  | some v =>
    match jsToNumber v with
    | none => false
    | some n => n < k

/-- Indexed element access on the decoded data.  Accessing an index of
null throws a TypeError (the error result); arrays and strings index
positionally, objects look the decimal key up, numbers and booleans have
no indexed properties. -/
def jsIndex (v : JVal) (i : Nat) : Except Unit JsArg :=
  match v with
  | .null => .error ()
  | .arr xs => .ok xs[i]?
  | .str s => .ok (s[i]?.map fun c => .str [c])
  | .obj kvs => .ok (lookupKv kvs (natToChars i))
  | .num _ => .ok none
  | .bool _ => .ok none

/-! Server state.  The heap of Connection objects is keyed by an abstract
socket identifier; a socket has an entry exactly when its authenticate
listener has run (the closure variable connection is assigned there).
Room objects are keyed by the room code value passed to Join.  The
outbox records every send call with its structured arguments;
termination of a socket records it in dead.  Re-authentication of a
socket replaces its heap entry; every claim concerns singly-authenticated
sockets, where the keying is faithful to object identity. -/

/-- One Connection object of src/connection.ts.  The id is the snowflake
identifier (modelled as the value of an opaque monotonic counter);
playerId and clientId start undefined; room holds the back-reference to
the containing room (none models both undefined and null, which every
use of the field treats alike); isAlive starts undefined. -/
structure Conn where
  id : Nat
  playerId : JsArg := none
  clientId : JsArg := none
  room : Option JsArg := none
  isAlive : Option Bool := none
deriving Repr

/-- A structured record of one send call: which event was sent to a
socket and with which arguments, before wire encoding. -/
inductive SentMsg where
  | auth (id : Nat)
  | joinBroadcast (id : Nat) (playerId : JsArg)
  | setClients (peers : List (Nat × JsArg × JsArg))
  | setClientBroadcast (playerId : JsArg) (clientId : JsArg)
  | signal (senderId : Nat) (payload : JsArg)
deriving Repr

/-- The room code key: the raw first Join argument. -/
abbrev RoomKey := JsArg

/-- The whole mutable server state: the heap of Connection objects keyed
by socket, the connections registry array, the rooms map (insertion
ordered, as a JavaScript Map), the opaque id counter, the set of sockets
that have been terminated, the record of send calls, and the record of
liveness probes sent. -/
structure ServerState where
  conns : List (Nat × Conn)
  registry : List Nat
  rooms : List (RoomKey × List Nat)
  nextId : Nat
  dead : List Nat
  outbox : List (Nat × SentMsg)
  pings : List Nat
deriving Repr

/-- The state at server start: no connections, no rooms. -/
def initialState : ServerState := ⟨[], [], [], 0, [], [], []⟩

/-- Heap lookup of the Connection object of a socket. -/
def lookupConn (cs : List (Nat × Conn)) (sock : Nat) : Option Conn :=
  List.lookup sock cs

/-- Heap update of the Connection object of a socket (replacing the
existing entry, or allocating one). -/
def setConn (cs : List (Nat × Conn)) (sock : Nat) (c : Conn) : List (Nat × Conn) :=
  match cs with
  | [] => [(sock, c)]
  | (k, v) :: rest => if k = sock then (sock, c) :: rest else (k, v) :: setConn rest sock c

/-- Member list of the room stored under a key. -/
def lookupRoom (rs : List (RoomKey × List Nat)) (k : RoomKey) : Option (List Nat) :=
  List.lookup k rs

/-- Pointwise update of the member list of the room stored under a key. -/
def modifyRoom (rs : List (RoomKey × List Nat)) (k : RoomKey) (f : List Nat → List Nat) :
    List (RoomKey × List Nat) :=
  match rs with
  | [] => []
  | (k2, m) :: rest => if k == k2 then (k2, f m) :: rest else (k2, m) :: modifyRoom rest k f

/-- Deletion of a room from the registry (Map.delete). -/
def removeRoom (rs : List (RoomKey × List Nat)) (k : RoomKey) : List (RoomKey × List Nat) :=
  rs.filter (fun p => !(k == p.1))

/-- Removal of the first occurrence of an element, as indexOf followed by
splice does on an array. -/
def removeFirst : List Nat → Nat → List Nat
  | [], _ => []
  | y :: rest, x => if y = x then rest else y :: removeFirst rest x

/-- Terminating a socket (idempotent, as socket.terminate is). -/
def terminate (st : ServerState) (sock : Nat) : ServerState :=
  if sock ∈ st.dead then st else { st with dead := st.dead ++ [sock] }

/-- The authenticate listener: allocate an id from the opaque source,
allocate the Connection object, push it on the connections registry and
reply with the id.  (The connect timeout it cancels is not part of any
claim.) -/
def handleAuthenticate (st : ServerState) (sock : Nat) : ServerState :=
  let id := st.nextId
  let conn : Conn := { id := id }
  { st with
      conns := setConn st.conns sock conn
      registry := st.registry ++ [sock]
      nextId := st.nextId + 1
      outbox := st.outbox ++ [(sock, .auth id)] }

/-- The anti-spoof test of the join listener on one existing member:
the member's clientId is strictly unequal to null and strictly equal to
the asserted clientId. -/
def joinSpoofHit (stored incoming : JsArg) : Bool :=
  !jsStrictEqNull stored && jsStrictEq stored incoming

/-- Room.broadcast: the sockets of the members satisfying the test, each
paired with the message, in member order.  (Member lists only ever hold
sockets with a heap entry; a missing entry broadcasts nothing for that
member.) -/
def broadcastTo (conns : List (Nat × Conn)) (members : List Nat) (test : Conn → Bool)
    (msg : SentMsg) : List (Nat × SentMsg) :=
  members.filterMap fun m =>
    (lookupConn conns m).bind fun mc => if test mc then some (m, msg) else none

/-- Room.clients: the members satisfying the test whose playerId is
truthy, each contributing the entry id mapped to the pair of playerId and
clientId, in member order (object keys are the distinct member ids, so
insertion order is member order). -/
def roomClients (conns : List (Nat × Conn)) (members : List Nat) (test : Conn → Bool) :
    List (Nat × JsArg × JsArg) :=
  members.filterMap fun m =>
    (lookupConn conns m).bind fun mc =>
      if test mc && jsTruthy mc.playerId then some (mc.id, mc.playerId, mc.clientId) else none

/-- Connection.join: set the room back-reference and the playerId, add
the connection to the member list, broadcast Join to the members whose id
differs from the joiner's, and send the joiner the SetClients snapshot of
the members whose id differs from the joiner's. -/
def connJoin (st : ServerState) (sock : Nat) (conn : Conn) (c : RoomKey) (playerId : JsArg) :
    ServerState :=
  let conn1 : Conn := { conn with room := some c, playerId := playerId }
  let conns1 := setConn st.conns sock conn1
  let rooms1 := modifyRoom st.rooms c (fun mem => mem ++ [sock])
  let members := (lookupRoom rooms1 c).getD []
  let joinMsgs := broadcastTo conns1 members (fun mc => mc.id != conn1.id)
    (.joinBroadcast conn1.id conn1.playerId)
  let snapshot := roomClients conns1 members (fun mc => mc.id != conn1.id)
  { st with
      conns := conns1
      rooms := rooms1
      outbox := st.outbox ++ joinMsgs ++ [(sock, .setClients snapshot)] }

/-- The anti-spoof loop of the join listener over a room's member list:
whether any member's stored clientId collides with the asserted one. -/
def spoofScan (conns : List (Nat × Conn)) (members : List Nat) (clientId : JsArg) : Bool :=
  members.any fun m =>
    match lookupConn conns m with
    | some mc => joinSpoofHit mc.clientId clientId
    | none => false

/-- The join listener: an unauthenticated socket is terminated; the room
is created if absent (before the anti-spoof loop, whose scan of a freshly
created room runs over its empty member list); if any existing member's
clientId collides with the asserted clientId the socket is terminated
(anti-spoof); otherwise the connection joins the room. -/
def handleJoin (st : ServerState) (sock : Nat) (c id clientId : JsArg) : ServerState :=
  match lookupConn st.conns sock with
  | none => terminate st sock
  | some conn =>
    match lookupRoom st.rooms c with
    | some mem =>
      if spoofScan st.conns mem clientId then terminate st sock
      else connJoin st sock conn c id
    | none =>
      let st1 := { st with rooms := st.rooms ++ [(c, [])] }
      if spoofScan st1.conns [] clientId then terminate st1 sock
      else connJoin st1 sock conn c id

/-- The leave listener: nothing happens without a connection or without a
room; otherwise the connection is removed from its room's member list,
its room reference is cleared, and the room is deleted from the registry
if its member count dropped below one. -/
def handleLeave (st : ServerState) (sock : Nat) : ServerState :=
  match lookupConn st.conns sock with
  | none => st
  | some conn =>
    match conn.room with
    | none => st
    | some r =>
      let rooms1 := modifyRoom st.rooms r (fun mem => removeFirst mem sock)
      let conns1 := setConn st.conns sock { conn with room := none }
      let cnt := ((lookupRoom rooms1 r).getD []).length
      let rooms2 := if cnt < 1 then removeRoom rooms1 r else rooms1
      { st with conns := conns1, rooms := rooms2 }

/-- The client listener: silently ignored without a connection; if the
stored clientId is loosely non-null and strictly differs from the
supplied one the socket is terminated (anti-spoof); otherwise
Connection.setId stores the supplied playerId and clientId and, when the
connection is in a room, broadcasts SetClient to the members whose id
differs. -/
def handleClient (st : ServerState) (sock : Nat) (id clientId : JsArg) : ServerState :=
  match lookupConn st.conns sock with
  | none => st
  | some conn =>
    if !jsLooseEqNull conn.clientId && !jsStrictEq conn.clientId clientId then
      terminate st sock
    else
      let conn1 : Conn := { conn with playerId := id, clientId := clientId }
      let conns1 := setConn st.conns sock conn1
      match conn1.room with
      | some r =>
        let members := (lookupRoom st.rooms r).getD []
        { st with
            conns := conns1
            outbox := st.outbox ++ broadcastTo conns1 members (fun mc => mc.id != conn1.id)
              (.setClientBroadcast conn1.playerId conn1.clientId) }
      | none => { st with conns := conns1 }

/-- Loose equality between a connection's id (a decimal snowflake string)
and a peer argument, as Room.find compares them: a string operand
compares by value, a number or boolean operand compares after ToNumber
of the id string; null and undefined are loosely equal only to each
other; object operands would coerce through ToPrimitive, which no claim
reaches, and compare false. -/
def idLooseEq (cid : Nat) (peer : JsArg) : Bool :=
  match peer with
  | some (.str s) => s == natToChars cid
  | some (.num n) => n == (cid : Int)
  | some (.bool b) => (if b then (1 : Int) else 0) == (cid : Int)
  | _ => false

/-- The signal listener: silently ignored without a connection; with a
connection but no room, the member scan dereferences the absent room and
throws a TypeError (the true flag); otherwise the first member whose id
is loosely equal to the peer argument, if any, is sent a Signal carrying
the sender's id and the payload, and an absent peer is silently
dropped. -/
def handleSignal (st : ServerState) (sock : Nat) (peer payload : JsArg) :
    ServerState × Bool :=
  match lookupConn st.conns sock with
  | none => (st, false)
  | some conn =>
    match conn.room with
    | none => (st, true)
    | some r =>
      let members := (lookupRoom st.rooms r).getD []
      match members.find? (fun m =>
          match lookupConn st.conns m with
          | some mc => idLooseEq mc.id peer
          | none => false) with
      | none => (st, false)
      | some m => ({ st with outbox := st.outbox ++ [(m, .signal conn.id payload)] }, false)

/-- The close listener: nothing happens without a connection; otherwise
Connection.leave runs first, and on a connection whose room is unset it
dereferences the absent room and throws a TypeError (the true flag)
before any cleanup, so neither the room step nor the registry splice
runs; with a room, the connection is detached, the room deleted if now
empty, and the first occurrence of the connection spliced out of the
connections registry. -/
def handleClose (st : ServerState) (sock : Nat) : ServerState × Bool :=
  match lookupConn st.conns sock with
  | none => (st, false)
  | some conn =>
    match conn.room with
    | none => (st, true)
    | some r =>
      let rooms1 := modifyRoom st.rooms r (fun mem => removeFirst mem sock)
      let conns1 := setConn st.conns sock { conn with room := none }
      let cnt := ((lookupRoom rooms1 r).getD []).length
      let rooms2 := if cnt < 1 then removeRoom rooms1 r else rooms1
      ({ st with conns := conns1, rooms := rooms2, registry := removeFirst st.registry sock },
        false)

/-- The pong listener: set isAlive on the connection; on a socket that
never authenticated the assignment dereferences the undefined closure
variable and throws (the true flag). -/
def handlePong (st : ServerState) (sock : Nat) : ServerState × Bool :=
  match lookupConn st.conns sock with
  | none => (st, true)
  | some conn =>
    ({ st with conns := setConn st.conns sock { conn with isAlive := some true } }, false)

/-! Wire codec.  Connection.send packs its rest arguments into one JSON
value, serializes it as UTF-8 JSON, and prefixes the event byte and the
big-endian 16-bit byte length; the message listener reads those three
header bytes, slices the declared number of payload bytes, decodes them
as UTF-8 and parses the JSON. -/

/-- Modelled from the spec: the repository's src/events.ts (the Events
enumeration) is not among the provided sources.  Spec section 6 fixes the
event set and its declaration order as Authentication, Join, Leave,
SetClient, SetClients, Signal, and a TypeScript enum without initializers
numbers its members 0, 1, 2, ... in declaration order; only distinctness
of the codes matters to any claim. -/
def Events.Authentication : Nat := 0

/-- Modelled from the spec: the Join event code (see Events.Authentication). -/
def Events.Join : Nat := 1

/-- Modelled from the spec: the Leave event code (see Events.Authentication). -/
def Events.Leave : Nat := 2

/-- Modelled from the spec: the SetClient event code (see Events.Authentication). -/
def Events.SetClient : Nat := 3

/-- Modelled from the spec: the SetClients event code (see Events.Authentication). -/
def Events.SetClients : Nat := 4

/-- Modelled from the spec: the Signal event code (see Events.Authentication). -/
def Events.Signal : Nat := 5

/-- The instanceof Object test of Connection.send: true exactly for
arrays and plain objects, false for every primitive. -/
def jsInstanceOfObject : JVal → Bool
  | .arr _ => true
  | .obj _ => true
  | _ => false

/-- The argument-packing step of Connection.send: no arguments serialize
no payload; when the first argument is an Object the first argument alone
is serialized; otherwise the whole argument array is serialized. -/
def sendValue (args : List JVal) : Option JVal :=
  match args with
  | [] => none
  | d0 :: rest => some (if jsInstanceOfObject d0 then d0 else .arr (d0 :: rest))

/-- The double-quote character. -/
def quoteChar : Char := Char.ofNat 34

/-- The backslash character. -/
def backslashChar : Char := Char.ofNat 92

/-- The opening-brace character. -/
def lbraceChar : Char := Char.ofNat 123

/-- The closing-brace character. -/
def rbraceChar : Char := Char.ofNat 125

/-- The lowercase hexadecimal digit character for a value below 16. -/
def hexChar (d : Nat) : Char :=
  if d < 10 then Char.ofNat (48 + d) else Char.ofNat (87 + d)

/-- JSON.stringify's escaping of one string character: the quote and the
backslash are backslash-escaped, the named control characters use their
short escapes, the remaining control characters use a four-digit
hexadecimal escape, and every other character stands for itself. -/
def escapeChar (c : Char) : List Char :=
  if c = quoteChar then [backslashChar, quoteChar]
  else if c = backslashChar then [backslashChar, backslashChar]
  else if c.toNat = 8 then [backslashChar, 'b']
  else if c.toNat = 9 then [backslashChar, 't']
  else if c.toNat = 10 then [backslashChar, 'n']
  else if c.toNat = 12 then [backslashChar, 'f']
  else if c.toNat = 13 then [backslashChar, 'r']
  else if c.toNat < 32 then
    [backslashChar, 'u', '0', '0'] ++ [hexChar (c.toNat / 16)] ++ [hexChar (c.toNat % 16)]
  else [c]

/-- Escaped body of a JSON string. -/
def escapeString (s : List Char) : List Char := (s.map escapeChar).flatten

/-- A quoted JSON string literal. -/
def quoteString (s : List Char) : List Char := quoteChar :: escapeString s ++ [quoteChar]

/-- Decimal serialization of an integer. -/
def intToChars (n : Int) : List Char :=
  if n < 0 then '-' :: natToChars n.natAbs else natToChars n.natAbs

mutual

/-- JSON.stringify on a modelled value (compact form: JSON.stringify with
no spacing argument emits no whitespace). -/
def jsonStringify : JVal → List Char
  | .null => 'n' :: ['u', 'l', 'l']
  | .bool b => if b then 't' :: ['r', 'u', 'e'] else 'f' :: ['a', 'l', 's', 'e']
  | .num n => intToChars n
  | .str s => quoteString s
  | .arr [] => ['[', ']']
  | .arr (x :: rest) => '[' :: (jsonStringify x ++ itemsRest rest) ++ [']']
  | .obj [] => [lbraceChar, rbraceChar]
  | .obj ((k, v) :: rest) =>
    lbraceChar :: (quoteString k ++ ':' :: jsonStringify v ++ membersRest rest) ++ [rbraceChar]

/-- The comma-separated continuation of an array literal. -/
def itemsRest : List JVal → List Char
  | [] => []
  | x :: rest => ',' :: jsonStringify x ++ itemsRest rest

/-- The comma-separated continuation of an object literal. -/
def membersRest : List (List Char × JVal) → List Char
  | [] => []
  | (k, v) :: rest => ',' :: quoteString k ++ ':' :: jsonStringify v ++ membersRest rest

end

/-- UTF-8 encoding of one Unicode scalar value (one to four bytes). -/
def utf8EncodeChar (c : Char) : List Nat :=
  let n := c.toNat
  if n < 128 then [n]
  else if n < 2048 then [192 + n / 64, 128 + n % 64]
  else if n < 65536 then [224 + n / 4096, 128 + n / 64 % 64, 128 + n % 64]
  else [240 + n / 262144, 128 + n / 4096 % 64, 128 + n / 64 % 64, 128 + n % 64]

/-- UTF-8 encoding of a string (the bytes Buffer.from produces). -/
def utf8Encode (s : List Char) : List Nat := (s.map utf8EncodeChar).flatten

/-- The Unicode replacement character emitted for invalid byte sequences. -/
def replacementChar : Char := Char.ofNat 65533

/-- Whether a byte is a UTF-8 continuation byte. -/
def isCont (b : Nat) : Bool := 128 ≤ b && b < 192

/-- Lossy UTF-8 decoding with an explicit budget on the number of
characters produced (each step consumes at least one byte, so a budget of
the byte count suffices): well-formed sequences decode to their scalar
value, a malformed lead or continuation byte yields the replacement
character and resynchronizes. -/
def utf8DecodeAux : Nat → List Nat → List Char
  | 0, _ => []
  | _ + 1, [] => []
  | fuel + 1, b1 :: rest =>
    if b1 < 128 then Char.ofNat b1 :: utf8DecodeAux fuel rest
    else if 194 ≤ b1 ∧ b1 < 224 then
      match rest with
      | b2 :: rest2 =>
        if isCont b2 then Char.ofNat ((b1 - 192) * 64 + (b2 - 128)) :: utf8DecodeAux fuel rest2
        else replacementChar :: utf8DecodeAux fuel (b2 :: rest2)
      | [] => [replacementChar]
    else if 224 ≤ b1 ∧ b1 < 240 then
      match rest with
      | b2 :: b3 :: rest2 =>
        if isCont b2 ∧ isCont b3 ∧
            (let v := (b1 - 224) * 4096 + (b2 - 128) * 64 + (b3 - 128)
             2048 ≤ v ∧ ¬(55296 ≤ v ∧ v < 57344)) then
          Char.ofNat ((b1 - 224) * 4096 + (b2 - 128) * 64 + (b3 - 128)) :: utf8DecodeAux fuel rest2
        else replacementChar :: utf8DecodeAux fuel (b2 :: b3 :: rest2)
      | _ => [replacementChar]
    else if 240 ≤ b1 ∧ b1 < 245 then
      match rest with
      | b2 :: b3 :: b4 :: rest2 =>
        if isCont b2 ∧ isCont b3 ∧ isCont b4 ∧
            (let v := (b1 - 240) * 262144 + (b2 - 128) * 4096 + (b3 - 128) * 64 + (b4 - 128)
             65536 ≤ v ∧ v < 1114112) then
          Char.ofNat ((b1 - 240) * 262144 + (b2 - 128) * 4096 + (b3 - 128) * 64 + (b4 - 128)) ::
            utf8DecodeAux fuel rest2
        else replacementChar :: utf8DecodeAux fuel (b2 :: b3 :: b4 :: rest2)
      | _ => [replacementChar]
    else replacementChar :: utf8DecodeAux fuel rest

/-- Lossy UTF-8 decoding as Buffer.toString performs it. -/
def utf8DecodeLossy (bs : List Nat) : List Char := utf8DecodeAux bs.length bs

/-- Value of a hexadecimal digit character (either case). -/
def hexVal (c : Char) : Option Nat :=
  if 48 ≤ c.toNat ∧ c.toNat ≤ 57 then some (c.toNat - 48)
  else if 97 ≤ c.toNat ∧ c.toNat ≤ 102 then some (c.toNat - 87)
  else if 65 ≤ c.toNat ∧ c.toNat ≤ 70 then some (c.toNat - 55)
  else none

/-- Body of a JSON string literal after the opening quote: characters up
to the closing quote, with escapes resolved; unescaped control
characters, truncated escapes and a missing closing quote are syntax
errors. -/
def parseStringBody : List Char → Option (List Char × List Char)
  | [] => none
  | c :: rest =>
    if c = quoteChar then some ([], rest)
    else if c = backslashChar then
      match rest with
      | [] => none
      | e :: rest2 =>
        if e = quoteChar then (parseStringBody rest2).map fun p => (quoteChar :: p.1, p.2)
        else if e = backslashChar then (parseStringBody rest2).map fun p => (backslashChar :: p.1, p.2)
        else if e = '/' then (parseStringBody rest2).map fun p => ('/' :: p.1, p.2)
        else if e = 'b' then (parseStringBody rest2).map fun p => (Char.ofNat 8 :: p.1, p.2)
        else if e = 't' then (parseStringBody rest2).map fun p => (Char.ofNat 9 :: p.1, p.2)
        else if e = 'n' then (parseStringBody rest2).map fun p => (Char.ofNat 10 :: p.1, p.2)
        else if e = 'f' then (parseStringBody rest2).map fun p => (Char.ofNat 12 :: p.1, p.2)
        else if e = 'r' then (parseStringBody rest2).map fun p => (Char.ofNat 13 :: p.1, p.2)
        else if e = 'u' then
          match rest2 with
          | h1 :: h2 :: h3 :: h4 :: rest3 =>
            match hexVal h1, hexVal h2, hexVal h3, hexVal h4 with
            | some d1, some d2, some d3, some d4 =>
              (parseStringBody rest3).map fun p =>
                (Char.ofNat (((d1 * 16 + d2) * 16 + d3) * 16 + d4) :: p.1, p.2)
            | _, _, _, _ => none
          | _ => none
        else none
    else if c.toNat < 32 then none
    else (parseStringBody rest).map fun p => (c :: p.1, p.2)

/-- Greedy span of decimal digits and its value. -/
def parseNatNum (s : List Char) : Option (Nat × List Char) :=
  let ds := s.takeWhile isDigitChar
  if ds.isEmpty then none else (digitsToNat ds).map fun n => (n, s.dropWhile isDigitChar)

/-- A JSON number (restricted to the optionally-signed decimal integers
of the modelled value space). -/
def parseNumber : List Char → Option (Int × List Char)
  | '-' :: rest => (parseNatNum rest).map fun p => (-(p.1 : Int), p.2)
  | s => (parseNatNum s).map fun p => ((p.1 : Int), p.2)

/-- Literal-word recognition: the expected characters in order, yielding
the remaining input. -/
def expectChars : List Char → List Char → Option (List Char)
  | [], s => some s
  | _ :: _, [] => none
  | c :: cs, x :: xs => if x = c then expectChars cs xs else none

mutual

/-- Recursive-descent JSON value parser with a recursion budget, modelling
JSON.parse on the whitespace-free grammar that compact JSON.stringify
emits (none models a thrown SyntaxError). -/
def parseVal : Nat → List Char → Option (JVal × List Char)
  | 0, _ => none
  | _ + 1, [] => none
  | fuel + 1, c :: rest =>
    if c = 'n' then (expectChars ['u', 'l', 'l'] rest).map fun r => (.null, r)
    else if c = 't' then (expectChars ['r', 'u', 'e'] rest).map fun r => (.bool true, r)
    else if c = 'f' then (expectChars ['a', 'l', 's', 'e'] rest).map fun r => (.bool false, r)
    else if c = quoteChar then (parseStringBody rest).map fun p => (.str p.1, p.2)
    else if c = '[' then
      if rest.head? = some ']' then some (.arr [], rest.tail)
      else
        (parseVal fuel rest).bind fun p =>
          (parseArrTail fuel p.2).map fun q => (.arr (p.1 :: q.1), q.2)
    else if c = lbraceChar then
      match rest with
      | [] => none
      | c2 :: r0 =>
        if c2 = rbraceChar then some (.obj [], r0)
        else if c2 = quoteChar then
          (parseStringBody r0).bind fun pk =>
            if pk.2.head? = some ':' then
              (parseVal fuel pk.2.tail).bind fun pv =>
                (parseObjTail fuel pv.2).map fun pt => (.obj ((pk.1, pv.1) :: pt.1), pt.2)
            else none
        else none
    else if c = '-' ∨ isDigitChar c then
      (parseNumber (c :: rest)).map fun p => (.num p.1, p.2)
    else none

/-- Continuation of an array literal after one parsed item: a closing
bracket ends it, a comma precedes the next item. -/
def parseArrTail : Nat → List Char → Option (List JVal × List Char)
  | 0, _ => none
  | _ + 1, [] => none
  | fuel + 1, c :: r =>
    if c = ']' then some ([], r)
    else if c = ',' then
      (parseVal fuel r).bind fun p =>
        (parseArrTail fuel p.2).map fun q => (p.1 :: q.1, q.2)
    else none

/-- Continuation of an object literal after one parsed member: a closing
brace ends it, a comma precedes the next member. -/
def parseObjTail : Nat → List Char → Option (List (List Char × JVal) × List Char)
  | 0, _ => none
  | _ + 1, [] => none
  | fuel + 1, c :: r =>
    if c = rbraceChar then some ([], r)
    else if c = ',' then
      match r with
      | [] => none
      | c2 :: r0 =>
        if c2 = quoteChar then
          (parseStringBody r0).bind fun pk =>
            if pk.2.head? = some ':' then
              (parseVal fuel pk.2.tail).bind fun pv =>
                (parseObjTail fuel pv.2).map fun pt => ((pk.1, pv.1) :: pt.1, pt.2)
            else none
        else none
    else none

end

/-- JSON.parse on a whole input: one value consuming the entire string
(compact stringify output carries no surrounding whitespace); the
recursion budget of one more than the input length dominates the nesting
depth of any parseable input. -/
def jsonParse (s : List Char) : Option JVal :=
  match parseVal (s.length + 1) s with
  | some (v, []) => some v
  | _ => none

/-- The framing step of Connection.send, given the value to serialize (if
any): the event byte, the big-endian 16-bit payload byte length, then the
UTF-8 JSON payload.  (For an event outside 0..255 or a payload beyond
65535 bytes the Buffer writes would throw; the claims carry those bounds
as hypotheses.) -/
def encode (event : Nat) (payload : Option JVal) : List Nat :=
  match payload with
  | none => [event, 0, 0]
  | some v =>
    let bs := utf8Encode (jsonStringify v)
    event :: bs.length / 256 :: bs.length % 256 :: bs

/-- Connection.send in full: argument packing followed by framing. -/
def send (event : Nat) (args : List JVal) : List Nat := encode event (sendValue args)

/-- The data computation of the message listener: the declared length is
read from bytes one and two, a zero length leaves data null, otherwise
the declared number of bytes after the header is decoded as UTF-8 and
JSON-parsed, a parse failure being a thrown SyntaxError (the error
result). -/
def decodeData (buf : List Nat) : Except Unit JVal :=
  let len := 256 * buf.getD 1 0 + buf.getD 2 0
  if len > 0 then
    match jsonParse (utf8DecodeLossy ((buf.drop 3).take len)) with
    | some v => .ok v
    | none => .error ()
  else .ok .null

/-- The decoding half of the wire codec as the message listener performs
it, up to dispatch: a buffer below three bytes is malformed, otherwise
the event byte and the decoded data (none here models the terminate on a
short buffer or a thrown parse error). -/
def wireDecode (buf : List Nat) : Option (Nat × JVal) :=
  if buf.length < 3 then none
  else
    match decodeData buf with
    | .ok v => some (buf.getD 0 0, v)
    | .error _ => none

/-- The message listener: a buffer below three bytes terminates the
socket; otherwise the event byte is dispatched, each event checking its
payload shape as in the source (the Boolean is the thrown-TypeError or
thrown-SyntaxError flag; argument extraction on a null payload throws). -/
def handleMessage (st : ServerState) (sock : Nat) (buf : List Nat) : ServerState × Bool :=
  if buf.length < 3 then (terminate st sock, false)
  else
    match decodeData buf with
    | .error _ => (st, true)
    | .ok data =>
      let type := buf.getD 0 0
      if type = Events.Authentication then
        if jsFalsy data then (terminate st sock, false)
        else (handleAuthenticate st sock, false)
      else if type = Events.Join then
        if jsLtNum (jsOptLength data) 3 then (terminate st sock, false)
        else
          match jsIndex data 0, jsIndex data 1, jsIndex data 2 with
          | .ok a0, .ok a1, .ok a2 => (handleJoin st sock a0 a1 a2, false)
          | _, _, _ => (st, true)
      else if type = Events.Leave then (handleLeave st sock, false)
      else if type = Events.SetClient then
        if jsLtNum (jsOptLength data) 2 then (terminate st sock, false)
        else
          match jsIndex data 0, jsIndex data 1 with
          | .ok a0, .ok a1 => (handleClient st sock a0 a1, false)
          | _, _ => (st, true)
      else if type = Events.Signal then
        if jsLtNum (jsOptLength data) 2 then (terminate st sock, false)
        else
          match jsIndex data 0, jsIndex data 1 with
          | .ok a0, .ok a1 => handleSignal st sock a0 a1
          | _, _ => (st, true)
      else (terminate st sock, false)

/-- One iteration of the liveness sweep on one registered socket: a
connection whose isAlive is strictly false is terminated; otherwise its
isAlive is reset to false and a probe is sent. -/
def sweepConn (st : ServerState) (sock : Nat) : ServerState :=
  match lookupConn st.conns sock with
  | none => st
  | some conn =>
    if conn.isAlive == some false then terminate st sock
    else
      { st with
          conns := setConn st.conns sock { conn with isAlive := some false }
          pings := st.pings ++ [sock] }

/-- The sweep over an explicit list of sockets, in order. -/
def sweepList (socks : List Nat) (st : ServerState) : ServerState :=
  socks.foldl sweepConn st

/-- The 30-second liveness sweep: every connection of the registry in
order. -/
def sweep (st : ServerState) : ServerState := sweepList st.registry st

/-! A structural size measure on JSON values, dominating the recursion
depth of the parser on any serialized value. -/

mutual

/-- Node-count measure of a JSON value. -/
def jsize : JVal → Nat
  | .arr xs => 1 + jsizeItems xs
  | .obj kvs => 1 + jsizeMembers kvs
  | _ => 1

/-- Measure of an array's item list. -/
def jsizeItems : List JVal → Nat
  | [] => 0
  | x :: rest => 1 + jsize x + jsizeItems rest

/-- Measure of an object's member list. -/
def jsizeMembers : List (List Char × JVal) → Nat
  | [] => 0
  | (_, v) :: rest => 1 + jsize v + jsizeMembers rest

end

/-! Helper lemmas about the registries and the terminate primitive. -/

lemma terminate_conns (st : ServerState) (sock : Nat) : (terminate st sock).conns = st.conns := by
  unfold terminate; split <;> rfl

lemma terminate_rooms (st : ServerState) (sock : Nat) : (terminate st sock).rooms = st.rooms := by
  unfold terminate; split <;> rfl

lemma terminate_outbox (st : ServerState) (sock : Nat) : (terminate st sock).outbox = st.outbox := by
  unfold terminate; split <;> rfl

lemma terminate_registry (st : ServerState) (sock : Nat) :
    (terminate st sock).registry = st.registry := by
  unfold terminate; split <;> rfl

lemma terminate_pings (st : ServerState) (sock : Nat) : (terminate st sock).pings = st.pings := by
  unfold terminate; split <;> rfl

lemma terminate_dead_mem (st : ServerState) (m sock : Nat) :
    sock ∈ (terminate st m).dead ↔ sock ∈ st.dead ∨ sock = m := by
  unfold terminate; split
  · constructor
    · exact fun h => Or.inl h
    · rintro (h | rfl)
      · exact h
      · assumption
  · simp

lemma mem_dead_terminate (st : ServerState) (sock : Nat) : sock ∈ (terminate st sock).dead :=
  (terminate_dead_mem st sock sock).mpr (Or.inr rfl)

lemma lookupConn_setConn_self (cs : List (Nat × Conn)) (sock : Nat) (c : Conn) :
    lookupConn (setConn cs sock c) sock = some c := by
  induction cs with
  | nil => exact List.lookup_cons_self
  | cons hd tl ih =>
    obtain ⟨k, v⟩ := hd
    unfold setConn
    by_cases h : k = sock
    · rw [if_pos h]
      exact List.lookup_cons_self
    · rw [if_neg h]
      unfold lookupConn at ih ⊢
      rw [List.lookup_cons, show (sock == k) = false from beq_eq_false_iff_ne.mpr (Ne.symm h)]
      exact ih

lemma lookupConn_setConn_ne (cs : List (Nat × Conn)) (sock m : Nat) (c : Conn) (h : m ≠ sock) :
    lookupConn (setConn cs sock c) m = lookupConn cs m := by
  induction cs with
  | nil =>
    unfold setConn lookupConn
    rw [List.lookup_cons, show (m == sock) = false from beq_eq_false_iff_ne.mpr h]
  | cons hd tl ih =>
    obtain ⟨k, v⟩ := hd
    unfold setConn
    by_cases hk : k = sock
    · rw [if_pos hk]
      unfold lookupConn
      rw [List.lookup_cons, List.lookup_cons,
        show (m == sock) = false from beq_eq_false_iff_ne.mpr h,
        show (m == k) = false from beq_eq_false_iff_ne.mpr (fun hmk => h (hmk.trans hk))]
    · rw [if_neg hk]
      unfold lookupConn at ih ⊢
      rw [List.lookup_cons, List.lookup_cons]
      cases hmk : m == k
      · exact ih
      · rfl

lemma lookupRoom_modifyRoom (rs : List (RoomKey × List Nat)) (k : RoomKey)
    (f : List Nat → List Nat) :
    lookupRoom (modifyRoom rs k f) k = (lookupRoom rs k).map f := by
  induction rs with
  | nil => rfl
  | cons hd tl ih =>
    obtain ⟨k2, m⟩ := hd
    unfold modifyRoom
    unfold lookupRoom at ih ⊢
    by_cases h : (k == k2) = true
    · rw [if_pos h]
      rw [List.lookup_cons, List.lookup_cons, h]
      rfl
    · rw [if_neg h]
      rw [List.lookup_cons, List.lookup_cons,
        show (k == k2) = false from Bool.not_eq_true _ ▸ eq_false_of_ne_true h]
      exact ih

/-- Reflexivity of the modelled strict equality on primitive values. -/
lemma jvalBeq_refl_prim (x : JVal) (h : jsPrim x = true) : jvalBeq x x = true := by
  cases x <;> simp_all [jsPrim, jvalBeq]

lemma jsStrictEq_refl_prim (x : JVal) (h : jsPrim x = true) :
    jsStrictEq (some x) (some x) = true := by
  simp [jsStrictEq, h, jvalBeq_refl_prim x h]

lemma jsStrictEqNull_of_ne_null (x : JVal) (h : x ≠ .null) : jsStrictEqNull (some x) = false := by
  cases x <;> simp_all [jsStrictEqNull]

lemma joinSpoofHit_self (x : JVal) (h1 : x ≠ .null) (h2 : jsPrim x = true) :
    joinSpoofHit (some x) (some x) = true := by
  simp [joinSpoofHit, jsStrictEqNull_of_ne_null x h1, jsStrictEq_refl_prim x h2]

/-! Claim theorems. -/

/-- C1: in a room holding a member whose clientId is a non-null primitive
value x, a Join asserting clientId x results in the asserting socket
being terminated, and the rooms, the connection heap and the outbox are
untouched, so the room's member list and the membership of the connection
holding x are unchanged by the rejected Join.  (The statement does not
even require the asserting socket to differ from the member holding x;
the claim's different-connection case is an instance.) -/
theorem join_antispoof (st : ServerState) (sock : Nat) (c pid : JsArg) (x : JVal)
    (mem : List Nat) (m : Nat) (mc : Conn)
    (hroom : lookupRoom st.rooms c = some mem)
    (hm : m ∈ mem) (hmc : lookupConn st.conns m = some mc)
    (hcid : mc.clientId = some x) (hx : x ≠ .null) (hprim : jsPrim x = true) :
    handleJoin st sock c pid (some x) = terminate st sock ∧
    sock ∈ (handleJoin st sock c pid (some x)).dead ∧
    (handleJoin st sock c pid (some x)).rooms = st.rooms ∧
    (handleJoin st sock c pid (some x)).conns = st.conns ∧
    (handleJoin st sock c pid (some x)).outbox = st.outbox := by
  have hmain : handleJoin st sock c pid (some x) = terminate st sock := by
    unfold handleJoin
    cases hconn : lookupConn st.conns sock with
    | none => rfl
    | some conn =>
      simp only [hroom]
      have hany : spoofScan st.conns mem (some x) = true := by
        refine List.any_eq_true.mpr ⟨m, hm, ?_⟩
        simp [hmc, hcid, joinSpoofHit_self x hx hprim]
      rw [if_pos hany]
  refine ⟨hmain, ?_, ?_, ?_, ?_⟩ <;> rw [hmain]
  · exact mem_dead_terminate st sock
  · exact terminate_rooms st sock
  · exact terminate_conns st sock
  · exact terminate_outbox st sock

/-- C1 witness: a concrete room AB with member socket 1 holding
clientId 100; a Join from socket 2 asserting clientId 100 is terminated
and changes nothing. -/
theorem join_antispoof_witness :
    handleJoin
        ⟨[(1, ⟨7, some (.num 1), some (.num 100), some (some (.str ['A', 'B'])), none⟩),
          (2, ⟨8, none, none, none, none⟩)], [1, 2],
          [(some (.str ['A', 'B']), [1])], 9, [], [], []⟩
        2 (some (.str ['A', 'B'])) (some (.num 2)) (some (.num 100)) =
      terminate
        ⟨[(1, ⟨7, some (.num 1), some (.num 100), some (some (.str ['A', 'B'])), none⟩),
          (2, ⟨8, none, none, none, none⟩)], [1, 2],
          [(some (.str ['A', 'B']), [1])], 9, [], [], []⟩ 2 :=
  (join_antispoof
    ⟨[(1, ⟨7, some (.num 1), some (.num 100), some (some (.str ['A', 'B'])), none⟩),
      (2, ⟨8, none, none, none, none⟩)], [1, 2],
      [(some (.str ['A', 'B']), [1])], 9, [], [], []⟩
    2 (some (.str ['A', 'B'])) (some (.num 2)) (JVal.num 100) [1] 1
    ⟨7, some (.num 1), some (.num 100), some (some (.str ['A', 'B'])), none⟩
    rfl (by simp) rfl rfl (by simp) rfl).1

/-- C2: the one-room invariant fails on the code.  Evaluating the trace
Authenticate, Join A, Join B for socket 1 leaves socket 1 in the member
lists of both room A and room B: Connection.join assigns the new room and
pushes onto its member list without ever removing the connection from the
previous room's list. -/
theorem one_room_invariant_violated :
    lookupRoom (handleJoin (handleJoin (handleAuthenticate initialState 1) 1
        (some (.str ['A'])) (some (.num 1)) (some (.num 10))) 1
        (some (.str ['B'])) (some (.num 1)) (some (.num 10))).rooms
        (some (.str ['A'])) = some [1] ∧
    lookupRoom (handleJoin (handleJoin (handleAuthenticate initialState 1) 1
        (some (.str ['A'])) (some (.num 1)) (some (.num 10))) 1
        (some (.str ['B'])) (some (.num 1)) (some (.num 10))).rooms
        (some (.str ['B'])) = some [1] ∧
    (JVal.str ['A']) ≠ (JVal.str ['B']) := by
  refine ⟨rfl, rfl, ?_⟩
  intro h
  injection h with h1
  simp at h1

/-- C4: a Join frame with a declared payload length of zero is not
treated as malformed: the guard on the payload length evaluates
undefined < 3, which is false, and the argument extraction then
dereferences the null data and throws, so the socket is not terminated
(the claim's terminate behavior holds only for the short-array case,
checked in the second conjunct). -/
theorem malformed_join_null_payload :
    handleMessage initialState 1 [Events.Join, 0, 0] = (initialState, true) ∧
    initialState.dead = [] ∧ initialState.rooms = [] ∧
    handleMessage initialState 1
        ([Events.Join, 0, 5] ++ utf8Encode (jsonStringify (.arr [.num 1, .num 2]))) =
      (terminate initialState 1, false) ∧
    (terminate initialState 1).dead = [1] :=
  ⟨rfl, rfl, rfl, rfl, rfl⟩

/-- C5: the close listener on an authenticated connection that is in no
room throws instead of cleaning up: Connection.leave dereferences the
absent room, and the connection is never removed from the connections
registry. -/
theorem close_no_room_throws :
    handleClose (handleAuthenticate initialState 1) 1 = (handleAuthenticate initialState 1, true) ∧
    (handleAuthenticate initialState 1).registry = [1] ∧
    lookupConn (handleAuthenticate initialState 1).conns 1 = some ⟨0, none, none, none, none⟩ :=
  ⟨rfl, rfl, rfl⟩

/-- C6 counterexample: a SetClient on a socket that never authenticated
leaves the state untouched and terminates nothing, contradicting the
claim that the server terminates such a connection. -/
theorem preauth_setclient_not_terminated :
    handleClient initialState 1 (some (.num 5)) (some (.num 6)) = initialState ∧
    initialState.dead = [] :=
  ⟨rfl, rfl⟩

/-- C6 amended: a SetClient received before authentication is silently
ignored (the handler returns without terminating and without touching any
state), unlike a pre-authentication Join, which terminates the socket. -/
theorem preauth_setclient_ignored (st : ServerState) (sock : Nat) (id clientId c pid : JsArg)
    (h : lookupConn st.conns sock = none) :
    handleClient st sock id clientId = st ∧
    handleJoin st sock c pid clientId = terminate st sock := by
  constructor
  · unfold handleClient; rw [h]
  · unfold handleJoin; rw [h]

/-- C6 amended witness at a concrete unauthenticated socket. -/
theorem preauth_setclient_ignored_witness :
    handleClient initialState 2 none none = initialState ∧
    handleJoin initialState 2 none none none = terminate initialState 2 :=
  preauth_setclient_ignored initialState 2 none none none none rfl

/-- C8 counterexample: a send call with two positional arguments whose
first is an object serializes only the first argument, not the JSON array
of both arguments that the claim demands. -/
theorem send_drops_rest_args :
    sendValue [JVal.obj [], JVal.num 5] = some (JVal.obj []) ∧
    JVal.obj [] ≠ JVal.arr [JVal.obj [], JVal.num 5] :=
  ⟨rfl, by simp⟩

/-- C8 amended: with no arguments nothing is serialized; when the first
argument is an object or an array, exactly that first argument is
serialized and any further arguments are dropped; only when the first
argument is a primitive are all the arguments serialized as one JSON
array in argument order. -/
theorem send_argument_packing (e : Nat) (a : JVal) (rest : List JVal) :
    (jsInstanceOfObject a = true → send e (a :: rest) = encode e (some a)) ∧
    (jsInstanceOfObject a = false → send e (a :: rest) = encode e (some (.arr (a :: rest)))) ∧
    send e [] = encode e none := by
  refine ⟨fun h => ?_, fun h => ?_, rfl⟩ <;> simp [send, sendValue, h]

/-- C8 amended witness: the object-first case at a concrete call. -/
theorem send_argument_packing_witness :
    send 0 [JVal.obj [], JVal.num 5] = encode 0 (some (JVal.obj [])) :=
  (send_argument_packing 0 (JVal.obj []) [JVal.num 5]).1 rfl

/-- C10: on an authenticated connection, a Signal with no room attached
dereferences the absent room and throws (state unchanged, error flag
set), while a Signal from a connection attached to a registered room
never throws, so the silent-drop behavior holds only for senders that
are in a room. -/
theorem signal_requires_room (st : ServerState) (sock : Nat) (conn : Conn)
    (peer payload : JsArg) (hc : lookupConn st.conns sock = some conn) :
    (conn.room = none → handleSignal st sock peer payload = (st, true)) ∧
    (∀ r mem, conn.room = some r → lookupRoom st.rooms r = some mem →
      (handleSignal st sock peer payload).2 = false) := by
  constructor
  · intro h
    unfold handleSignal
    simp only [hc, h]
  · intro r mem hr hmem
    unfold handleSignal
    simp only [hc, hr]
    cases hf : (lookupRoom st.rooms r).getD [] |>.find? (fun m =>
        match lookupConn st.conns m with
        | some mc => idLooseEq mc.id peer
        | none => false) <;> simp [hf]

/-- C10 witness: socket 1 authenticated but roomless throws on Signal. -/
theorem signal_requires_room_witness :
    handleSignal (handleAuthenticate initialState 1) 1 none none =
      (handleAuthenticate initialState 1, true) :=
  (signal_requires_room (handleAuthenticate initialState 1) 1 ⟨0, none, none, none, none⟩
    none none rfl).1 rfl

/-- C7 counterexample: a room whose sole member has playerId 0 (set by
its own Join) yields an empty SetClients snapshot for the next joiner,
because Room.clients tests the playerId for truthiness and 0 is falsy;
the claim demands that this non-null peer be included.  The final
conjuncts record that the peer's playerId is indeed 0, which is neither
null nor undefined. -/
theorem setclients_playerid_zero_excluded :
    (handleJoin (handleAuthenticate (handleJoin (handleAuthenticate initialState 1) 1
        (some (.str ['A'])) (some (.num 0)) (some (.num 100))) 2) 2
        (some (.str ['A'])) (some (.num 5)) (some (.num 200))).outbox.getLast? =
      some (2, .setClients []) ∧
    lookupConn (handleJoin (handleAuthenticate (handleJoin (handleAuthenticate initialState 1) 1
        (some (.str ['A'])) (some (.num 0)) (some (.num 100))) 2) 2
        (some (.str ['A'])) (some (.num 5)) (some (.num 200))).conns 1 =
      some ⟨0, some (.num 0), none, some (some (.str ['A'])), none⟩ ∧
    (some (JVal.num 0) : JsArg) ≠ some .null ∧ (some (JVal.num 0) : JsArg) ≠ none :=
  ⟨rfl, rfl, by simp, by simp⟩

/-- C7 amended: on a successful Join into an existing room (sender
authenticated, no clientId collision, the joiner not already a member and
its id distinct from every member's), the SetClients message sent to the
joiner maps exactly the pre-existing members whose playerId is truthy —
non-null, non-undefined and nonzero — to their (id, playerId, clientId)
triples in member order; the joiner itself is never included, and a peer
whose playerId is 0 is excluded. -/
theorem setclients_snapshot (st : ServerState) (sock : Nat) (conn : Conn) (c : RoomKey)
    (pid cid : JsArg) (mem : List Nat)
    (hc : lookupConn st.conns sock = some conn)
    (hroom : lookupRoom st.rooms c = some mem)
    (hnospoof : spoofScan st.conns mem cid = false)
    (hnotmem : sock ∉ mem)
    (hid : ∀ m ∈ mem, ∀ mc, lookupConn st.conns m = some mc → mc.id ≠ conn.id) :
    (handleJoin st sock c pid cid).outbox.getLast? =
      some (sock, .setClients (mem.filterMap fun m =>
        (lookupConn st.conns m).bind fun mc =>
          if jsTruthy mc.playerId then some (mc.id, mc.playerId, mc.clientId) else none)) := by
  unfold handleJoin
  simp only [hc, hroom]
  rw [if_neg (by rw [hnospoof]; exact Bool.false_ne_true)]
  unfold connJoin
  simp only
  rw [List.getLast?_concat]
  have hmembers : (lookupRoom (modifyRoom st.rooms c fun mem => mem ++ [sock]) c).getD [] =
      mem ++ [sock] := by
    rw [lookupRoom_modifyRoom, hroom]
    rfl
  rw [hmembers]
  unfold roomClients
  rw [List.filterMap_append]
  have hself : List.filterMap (fun m =>
      (lookupConn (setConn st.conns sock { conn with room := some c, playerId := pid }) m).bind
        fun mc => if (mc.id != conn.id) && jsTruthy mc.playerId then
          some (mc.id, mc.playerId, mc.clientId) else none) [sock] = [] := by
    simp [List.filterMap_cons, lookupConn_setConn_self]
  have hrest : List.filterMap (fun m =>
      (lookupConn (setConn st.conns sock { conn with room := some c, playerId := pid }) m).bind
        fun mc => if (mc.id != conn.id) && jsTruthy mc.playerId then
          some (mc.id, mc.playerId, mc.clientId) else none) mem =
      List.filterMap (fun m => (lookupConn st.conns m).bind fun mc =>
        if jsTruthy mc.playerId then some (mc.id, mc.playerId, mc.clientId) else none) mem := by
    refine List.filterMap_congr ?_
    intro m hm
    rw [lookupConn_setConn_ne _ _ _ _ (fun heq => hnotmem (by rw [← heq]; exact hm))]
    cases hmc : lookupConn st.conns m with
    | none => rfl
    | some mc =>
      simp [hid m hm mc hmc]
  rw [hself, hrest, List.append_nil]

/-- C7 amended witness: one existing member with a truthy playerId is
mapped, in a concrete two-member scenario. -/
theorem setclients_snapshot_witness :
    (handleJoin
        ⟨[(1, ⟨7, some (.num 3), some (.num 100), some (some (.str ['A'])), none⟩),
          (2, ⟨8, none, none, none, none⟩)], [1, 2],
          [(some (.str ['A']), [1])], 9, [], [], []⟩
        2 (some (.str ['A'])) (some (.num 5)) (some (.num 200))).outbox.getLast? =
      some (2, .setClients [(7, some (.num 3), some (.num 100))]) :=
  setclients_snapshot
    ⟨[(1, ⟨7, some (.num 3), some (.num 100), some (some (.str ['A'])), none⟩),
      (2, ⟨8, none, none, none, none⟩)], [1, 2],
      [(some (.str ['A']), [1])], 9, [], [], []⟩
    2 ⟨8, none, none, none, none⟩ (some (.str ['A'])) (some (.num 5)) (some (.num 200)) [1]
    rfl rfl rfl (by simp)
    (by
      intro m hm mc hmc
      simp only [List.mem_singleton] at hm
      subst hm
      cases hmc
      simp)

/-! Lemmas for the liveness sweep. -/

lemma sweepConn_registry (st : ServerState) (m : Nat) :
    (sweepConn st m).registry = st.registry := by
  unfold sweepConn
  split
  · rfl
  · split
    · exact terminate_registry st m
    · rfl

lemma sweepConn_pings_mono (st : ServerState) (m x : Nat) (h : x ∈ st.pings) :
    x ∈ (sweepConn st m).pings := by
  unfold sweepConn
  split
  · exact h
  · split
    · rw [terminate_pings]
      exact h
    · exact List.mem_append_left _ h

lemma sweepConn_other (st : ServerState) (m sock : Nat) (h : m ≠ sock) :
    lookupConn (sweepConn st m).conns sock = lookupConn st.conns sock ∧
    (sock ∈ (sweepConn st m).dead ↔ sock ∈ st.dead) := by
  unfold sweepConn
  split
  · exact ⟨rfl, Iff.rfl⟩
  · split
    · refine ⟨by rw [terminate_conns], ?_⟩
      rw [terminate_dead_mem]
      exact or_iff_left (fun hsm => h hsm.symm)
    · exact ⟨lookupConn_setConn_ne _ _ _ _ (fun hx => h hx.symm), Iff.rfl⟩

lemma sweepList_registry (L : List Nat) (st : ServerState) :
    (sweepList L st).registry = st.registry := by
  induction L generalizing st with
  | nil => rfl
  | cons x L ih =>
    unfold sweepList at ih ⊢
    rw [List.foldl_cons, ih, sweepConn_registry]

lemma sweepList_pings_mono (L : List Nat) (st : ServerState) (x : Nat) (h : x ∈ st.pings) :
    x ∈ (sweepList L st).pings := by
  induction L generalizing st with
  | nil => exact h
  | cons y L ih =>
    unfold sweepList at ih ⊢
    rw [List.foldl_cons]
    exact ih _ (sweepConn_pings_mono st y x h)

lemma sweepList_other (L : List Nat) (st : ServerState) (sock : Nat) (h : sock ∉ L) :
    lookupConn (sweepList L st).conns sock = lookupConn st.conns sock ∧
    (sock ∈ (sweepList L st).dead ↔ sock ∈ st.dead) := by
  induction L generalizing st with
  | nil => exact ⟨rfl, Iff.rfl⟩
  | cons y L ih =>
    have hy : y ≠ sock := fun hx => h (hx ▸ List.mem_cons_self y L)
    have hrest : sock ∉ L := fun hx => h (List.mem_cons_of_mem y hx)
    unfold sweepList at ih ⊢
    rw [List.foldl_cons]
    obtain ⟨h1, h2⟩ := ih (sweepConn st y) hrest
    obtain ⟨h3, h4⟩ := sweepConn_other st y sock hy
    exact ⟨h1.trans h3, h2.trans h4⟩

lemma sweepConn_kill (st : ServerState) (sock : Nat) (conn : Conn)
    (hc : lookupConn st.conns sock = some conn) (ha : conn.isAlive = some false) :
    sweepConn st sock = terminate st sock := by
  unfold sweepConn
  rw [hc]
  simp [ha]

lemma sweepConn_probe (st : ServerState) (sock : Nat) (conn : Conn)
    (hc : lookupConn st.conns sock = some conn) (ha : conn.isAlive ≠ some false) :
    sweepConn st sock =
      { st with conns := setConn st.conns sock { conn with isAlive := some false },
                pings := st.pings ++ [sock] } := by
  unfold sweepConn
  rw [hc]
  simp only
  rw [if_neg (by rw [beq_eq_false_iff_ne.mpr ha]; exact Bool.false_ne_true)]

lemma sweep_decompose (st : ServerState) (sock : Nat)
    (hmem : sock ∈ st.registry) (hnd : st.registry.Nodup) :
    ∃ L1 L2, sock ∉ L1 ∧ sock ∉ L2 ∧
      sweep st = sweepList L2 (sweepConn (sweepList L1 st) sock) := by
  obtain ⟨L1, L2, hsplit⟩ := List.append_of_mem hmem
  rw [hsplit] at hnd
  rw [List.nodup_append] at hnd
  obtain ⟨hn1, hn2, hdisj⟩ := hnd
  refine ⟨L1, L2, fun hx => hdisj hx (List.mem_cons_self _ _), ?_, ?_⟩
  · rw [List.nodup_cons] at hn2
    exact hn2.1
  · unfold sweep sweepList
    rw [hsplit, List.foldl_append, List.foldl_cons]

lemma sweep_probe_status (st : ServerState) (sock : Nat) (conn : Conn)
    (hmem : sock ∈ st.registry) (hnd : st.registry.Nodup)
    (hc : lookupConn st.conns sock = some conn) (ha : conn.isAlive ≠ some false) :
    lookupConn (sweep st).conns sock = some { conn with isAlive := some false } ∧
    (sock ∈ (sweep st).dead ↔ sock ∈ st.dead) ∧
    sock ∈ (sweep st).pings := by
  obtain ⟨L1, L2, h1, h2, hdec⟩ := sweep_decompose st sock hmem hnd
  obtain ⟨hl1, hd1⟩ := sweepList_other L1 st sock h1
  have hprobe := sweepConn_probe (sweepList L1 st) sock conn (hl1.trans hc) ha
  obtain ⟨hl2, hd2⟩ := sweepList_other L2 (sweepConn (sweepList L1 st) sock) sock h2
  rw [hdec]
  refine ⟨?_, ?_, ?_⟩
  · rw [hl2, hprobe]
    exact lookupConn_setConn_self _ _ _
  · rw [hd2, hprobe]
    exact hd1
  · refine sweepList_pings_mono _ _ _ ?_
    rw [hprobe]
    exact List.mem_append_right _ (List.mem_singleton.mpr rfl)

lemma sweep_kill_status (st : ServerState) (sock : Nat) (conn : Conn)
    (hmem : sock ∈ st.registry) (hnd : st.registry.Nodup)
    (hc : lookupConn st.conns sock = some conn) (ha : conn.isAlive = some false) :
    sock ∈ (sweep st).dead := by
  obtain ⟨L1, L2, h1, h2, hdec⟩ := sweep_decompose st sock hmem hnd
  obtain ⟨hl1, hd1⟩ := sweepList_other L1 st sock h1
  have hkill := sweepConn_kill (sweepList L1 st) sock conn (hl1.trans hc) ha
  obtain ⟨hl2, hd2⟩ := sweepList_other L2 (sweepConn (sweepList L1 st) sock) sock h2
  rw [hdec, hd2, hkill]
  exact mem_dead_terminate _ _

lemma handlePong_some (st : ServerState) (sock : Nat) (conn : Conn)
    (hc : lookupConn st.conns sock = some conn) :
    (handlePong st sock).1 =
      { st with conns := setConn st.conns sock { conn with isAlive := some true } } := by
  unfold handlePong
  rw [hc]

/-- C9: under sweeps and pong receipts, a live registered connection
whose isAlive flag is not strictly false (so the sweep probes it instead
of terminating — in particular one whose flag is true) is not terminated
by that sweep and a probe is recorded for it; if no pong arrives, the
following sweep terminates it; and if its pong arrives between the two
sweeps, the second sweep does not terminate it either.  Thus a connection
survives at most one missed probe response before eviction, and a sweep
never terminates a connection whose isAlive flag is true. -/
theorem liveness_eviction (st : ServerState) (sock : Nat) (conn : Conn)
    (hmem : sock ∈ st.registry) (hnd : st.registry.Nodup)
    (hc : lookupConn st.conns sock = some conn)
    (ha : conn.isAlive ≠ some false) (hdead : sock ∉ st.dead) :
    sock ∉ (sweep st).dead ∧
    sock ∈ (sweep st).pings ∧
    sock ∈ (sweep (sweep st)).dead ∧
    sock ∉ (sweep ((handlePong (sweep st) sock).1)).dead := by
  obtain ⟨hl, hdiff, hp⟩ := sweep_probe_status st sock conn hmem hnd hc ha
  have hreg1 : (sweep st).registry = st.registry := sweepList_registry _ _
  refine ⟨fun hin => hdead (hdiff.mp hin), hp, ?_, ?_⟩
  · exact sweep_kill_status (sweep st) sock _ (hreg1 ▸ hmem) (hreg1 ▸ hnd) hl rfl
  · have hpong := handlePong_some (sweep st) sock _ hl
    have hl3 : lookupConn ((handlePong (sweep st) sock).1).conns sock =
        some { conn with isAlive := some true } := by
      rw [hpong]
      exact lookupConn_setConn_self _ _ _
    have hreg2 : ((handlePong (sweep st) sock).1).registry = st.registry := by
      rw [hpong]
      exact hreg1
    have hdead2 : ((handlePong (sweep st) sock).1).dead = (sweep st).dead := by
      rw [hpong]
    obtain ⟨hl4, hdiff2, hp2⟩ := sweep_probe_status ((handlePong (sweep st) sock).1) sock
      { conn with isAlive := some true } (hreg2 ▸ hmem) (hreg2 ▸ hnd) hl3 (by simp)
    intro hin
    exact hdead (hdiff.mp ((hdead2 ▸ hdiff2.mp hin : sock ∈ (sweep st).dead)))

/-- C9 witness: a freshly authenticated socket (isAlive undefined)
survives the first sweep with a probe recorded, is terminated by the
second sweep when no pong arrives, and is spared by the second sweep when
its pong arrives in between. -/
theorem liveness_eviction_witness :
    1 ∉ (sweep (handleAuthenticate initialState 1)).dead ∧
    1 ∈ (sweep (handleAuthenticate initialState 1)).pings ∧
    1 ∈ (sweep (sweep (handleAuthenticate initialState 1))).dead ∧
    1 ∉ (sweep ((handlePong (sweep (handleAuthenticate initialState 1)) 1).1)).dead :=
  liveness_eviction (handleAuthenticate initialState 1) 1 ⟨0, none, none, none, none⟩
    (by decide) (by decide) rfl (by decide) (by decide)

/-! Round-trip lemmas for the decimal number serialization. -/

lemma natDigitsBEAux_lt10 (fuel : Nat) : ∀ n d, d ∈ natDigitsBEAux fuel n → d < 10 := by
  induction fuel with
  | zero => intro n d h; simp [natDigitsBEAux] at h
  | succ fuel ih =>
    intro n d h
    unfold natDigitsBEAux at h
    by_cases hn : n < 10
    · rw [if_pos hn] at h
      rw [List.mem_singleton] at h
      omega
    · rw [if_neg hn] at h
      rcases List.mem_append.mp h with h1 | h2
      · exact ih _ _ h1
      · rw [List.mem_singleton] at h2
        omega

lemma natDigitsBEAux_ne_nil (fuel n : Nat) (h : 0 < fuel) : natDigitsBEAux fuel n ≠ [] := by
  cases fuel with
  | zero => omega
  | succ fuel =>
    unfold natDigitsBEAux
    by_cases hn : n < 10
    · rw [if_pos hn]
      simp
    · rw [if_neg hn]
      simp

lemma natDigitsBEAux_foldl (fuel : Nat) : ∀ n acc, n < fuel →
    (natDigitsBEAux fuel n).foldl (fun a d => 10 * a + d) acc =
      acc * 10 ^ (natDigitsBEAux fuel n).length + n := by
  induction fuel with
  | zero => intro n acc h; omega
  | succ fuel ih =>
    intro n acc h
    unfold natDigitsBEAux
    by_cases hn : n < 10
    · rw [if_pos hn]
      simp
      omega
    · rw [if_neg hn]
      have hfd : n / 10 < fuel := by omega
      rw [List.foldl_append, ih (n / 10) acc hfd]
      simp only [List.foldl_cons, List.foldl_nil, List.length_append, List.length_singleton]
      rw [pow_succ]
      have hmod := Nat.div_add_mod n 10
      set L := (natDigitsBEAux fuel (n / 10)).length
      calc 10 * (acc * 10 ^ L + n / 10) + n % 10
        = acc * (10 ^ L * 10) + (10 * (n / 10) + n % 10) := by ring
      _ = acc * (10 ^ L * 10) + n := by omega

lemma charDigit_digitChar : ∀ d, d < 10 → charDigit (digitChar d) = some d := by decide

lemma isDigitChar_digitChar : ∀ d, d < 10 → isDigitChar (digitChar d) = true := by decide

lemma digitsToNatAux_map (ds : List Nat) : ∀ acc, (∀ d ∈ ds, d < 10) →
    digitsToNatAux acc (ds.map digitChar) = some (ds.foldl (fun a d => 10 * a + d) acc) := by
  induction ds with
  | nil => intro acc h; rfl
  | cons d ds ih =>
    intro acc h
    have hd : d < 10 := h d (List.mem_cons_self _ _)
    simp only [List.map_cons, List.foldl_cons]
    unfold digitsToNatAux
    rw [charDigit_digitChar d hd]
    exact ih _ (fun x hx => h x (List.mem_cons_of_mem _ hx))

lemma natToChars_ne_nil (n : Nat) : natToChars n ≠ [] := by
  unfold natToChars natDigitsBE
  intro h
  exact natDigitsBEAux_ne_nil (n + 1) n (by omega) (List.map_eq_nil_iff.mp h)

lemma natToChars_all_digits (n : Nat) : ∀ c ∈ natToChars n, isDigitChar c = true := by
  intro c hc
  unfold natToChars natDigitsBE at hc
  obtain ⟨d, hd, rfl⟩ := List.mem_map.mp hc
  exact isDigitChar_digitChar d (natDigitsBEAux_lt10 (n + 1) n d hd)

lemma digitsToNat_natToChars (n : Nat) : digitsToNat (natToChars n) = some n := by
  unfold natToChars natDigitsBE
  cases hds : natDigitsBEAux (n + 1) n with
  | nil => exact absurd hds (natDigitsBEAux_ne_nil (n + 1) n (by omega))
  | cons d ds =>
    have hlt : ∀ x ∈ natDigitsBEAux (n + 1) n, x < 10 := natDigitsBEAux_lt10 (n + 1) n
    rw [hds] at hlt
    have hd : d < 10 := hlt d (List.mem_cons_self _ _)
    simp only [List.map_cons, digitsToNat]
    rw [charDigit_digitChar d hd]
    show digitsToNatAux d (List.map digitChar ds) = some n
    rw [digitsToNatAux_map ds d (fun x hx => hlt x (List.mem_cons_of_mem _ hx))]
    have hfold := natDigitsBEAux_foldl (n + 1) n 0 (by omega)
    rw [hds] at hfold
    simp only [List.foldl_cons] at hfold
    simpa using hfold

/-- No digit at the head of the remaining input: the condition under
which the greedy number parser stops exactly at a serialized number's
end. -/
def headNotDigit (r : List Char) : Prop :=
  ∀ c, r.head? = some c → isDigitChar c = false

lemma headNotDigit_nil : headNotDigit [] := by
  intro c h
  simp at h

lemma headNotDigit_cons (c : Char) (r : List Char) (h : isDigitChar c = false) :
    headNotDigit (c :: r) := by
  intro x hx
  simp at hx
  rw [← hx]
  exact h

lemma takeWhile_append_all {p : Char → Bool} (xs r : List Char) (h : ∀ c ∈ xs, p c = true) :
    (xs ++ r).takeWhile p = xs ++ r.takeWhile p := by
  induction xs with
  | nil => rfl
  | cons x xs ih =>
    simp only [List.cons_append, List.takeWhile_cons, h x (List.mem_cons_self _ _), if_true]
    rw [ih (fun c hc => h c (List.mem_cons_of_mem _ hc))]

lemma dropWhile_append_all {p : Char → Bool} (xs r : List Char) (h : ∀ c ∈ xs, p c = true) :
    (xs ++ r).dropWhile p = r.dropWhile p := by
  induction xs with
  | nil => rfl
  | cons x xs ih =>
    simp only [List.cons_append, List.dropWhile_cons, h x (List.mem_cons_self _ _), if_true]
    exact ih (fun c hc => h c (List.mem_cons_of_mem _ hc))

lemma takeWhile_headNotDigit (r : List Char) (h : headNotDigit r) :
    r.takeWhile isDigitChar = [] := by
  cases r with
  | nil => rfl
  | cons c r =>
    simp [List.takeWhile_cons, h c rfl]

lemma dropWhile_headNotDigit (r : List Char) (h : headNotDigit r) :
    r.dropWhile isDigitChar = r := by
  cases r with
  | nil => rfl
  | cons c r =>
    simp [List.dropWhile_cons, h c rfl]

lemma parseNatNum_natToChars (n : Nat) (r : List Char) (hr : headNotDigit r) :
    parseNatNum (natToChars n ++ r) = some (n, r) := by
  unfold parseNatNum
  rw [takeWhile_append_all _ _ (natToChars_all_digits n), takeWhile_headNotDigit r hr,
    dropWhile_append_all _ _ (natToChars_all_digits n), dropWhile_headNotDigit r hr,
    List.append_nil]
  rw [if_neg (by simpa [List.isEmpty_iff] using natToChars_ne_nil n)]
  rw [digitsToNat_natToChars n]
  rfl

lemma isDigitChar_minus_eq_false : isDigitChar '-' = false := by decide

lemma parseNumber_intToChars (n : Int) (r : List Char) (hr : headNotDigit r) :
    parseNumber (intToChars n ++ r) = some (n, r) := by
  unfold intToChars
  by_cases hn : n < 0
  · rw [if_pos hn]
    show parseNumber ('-' :: (natToChars n.natAbs ++ r)) = some (n, r)
    unfold parseNumber
    split
    · rename_i rest heq
      injection heq with h1 h2
      rw [← h2, parseNatNum_natToChars n.natAbs r hr]
      show some ((-(n.natAbs : Int) : Int), r) = some (n, r)
      have hx : -(n.natAbs : Int) = n := by omega
      rw [hx]
    · rename_i hne
      exact absurd rfl (hne (natToChars n.natAbs ++ r))
  · rw [if_neg hn]
    cases hds : natToChars n.natAbs with
    | nil => exact absurd hds (natToChars_ne_nil _)
    | cons c cs =>
      have hcd : isDigitChar c = true := by
        have := natToChars_all_digits n.natAbs c
        rw [hds] at this
        exact this (List.mem_cons_self _ _)
      show parseNumber (c :: (cs ++ r)) = some (n, r)
      unfold parseNumber
      split
      · rename_i rest heq
        injection heq with h1 h2
        rw [h1] at hcd
        exact absurd hcd (by decide)
      · have hrw : c :: (cs ++ r) = natToChars n.natAbs ++ r := by
          rw [hds]
          rfl
        rw [hrw, parseNatNum_natToChars n.natAbs r hr]
        show some (((n.natAbs : Int) : Int), r) = some (n, r)
        have hx : (n.natAbs : Int) = n := by omega
        rw [hx]

/-! Round-trip lemmas for the string escaping of JSON.stringify. -/

lemma hexVal_hexChar : ∀ d, d < 16 → hexVal (hexChar d) = some d := by decide

lemma parseStringBody_escapeChar (c : Char) (t : List Char) :
    parseStringBody (escapeChar c ++ t) =
      (parseStringBody t).map fun p => (c :: p.1, p.2) := by
  unfold escapeChar
  split_ifs with h1 h2 h3 h4 h5 h6 h7 h8
  · subst h1
    rw [parseStringBody.eq_def]
    simp +decide
  · subst h2
    rw [parseStringBody.eq_def]
    simp +decide
  · have hc : Char.ofNat 8 = c := by rw [← h3, Char.ofNat_toNat]
    rw [parseStringBody.eq_def]
    simp +decide
    rw [hc]
  · have hc : Char.ofNat 9 = c := by rw [← h4, Char.ofNat_toNat]
    rw [parseStringBody.eq_def]
    simp +decide
    rw [hc]
  · have hc : Char.ofNat 10 = c := by rw [← h5, Char.ofNat_toNat]
    rw [parseStringBody.eq_def]
    simp +decide
    rw [hc]
  · have hc : Char.ofNat 12 = c := by rw [← h6, Char.ofNat_toNat]
    rw [parseStringBody.eq_def]
    simp +decide
    rw [hc]
  · have hc : Char.ofNat 13 = c := by rw [← h7, Char.ofNat_toNat]
    rw [parseStringBody.eq_def]
    simp +decide
    rw [hc]
  · have ha := hexVal_hexChar (c.toNat / 16) (by omega)
    have hb := hexVal_hexChar (c.toNat % 16) (by omega)
    have h0 : hexVal '0' = some 0 := rfl
    have hc : Char.ofNat (((0 * 16 + 0) * 16 + c.toNat / 16) * 16 + c.toNat % 16) = c := by
      rw [show ((0 * 16 + 0) * 16 + c.toNat / 16) * 16 + c.toNat % 16 = c.toNat from by omega,
        Char.ofNat_toNat]
    rw [parseStringBody.eq_def]
    simp +decide [ha, hb, h0]
    rw [show (c.toNat / 16 * 16 + c.toNat % 16 : Nat) = c.toNat from by omega, Char.ofNat_toNat]
  · simp only [List.cons_append, List.nil_append]
    rw [parseStringBody.eq_def]
    simp only [if_neg h1, if_neg h2, if_neg h8]

lemma parseStringBody_escapeString (s : List Char) : ∀ r,
    parseStringBody (escapeString s ++ quoteChar :: r) = some (s, r) := by
  induction s with
  | nil =>
    intro r
    show parseStringBody (quoteChar :: r) = some ([], r)
    rw [parseStringBody.eq_def]
    simp +decide
  | cons c cs ih =>
    intro r
    have hesc : escapeString (c :: cs) = escapeChar c ++ escapeString cs := by
      simp [escapeString]
    rw [hesc, List.append_assoc, parseStringBody_escapeChar, ih]
    rfl

/-! Round-trip lemmas for the UTF-8 codec. -/

lemma isCont_true (b : Nat) (h1 : 128 ≤ b) (h2 : b < 192) : isCont b = true := by
  simp [isCont]
  omega

lemma char_valid_range (c : Char) :
    c.toNat < 55296 ∨ (57343 < c.toNat ∧ c.toNat < 1114112) := by
  have h : c.toNat.isValidChar := c.valid
  rcases h with h | h
  · exact Or.inl h
  · exact Or.inr h

lemma utf8DecodeAux_ascii (fuel b : Nat) (rest : List Nat) (h : b < 128) :
    utf8DecodeAux (fuel + 1) (b :: rest) = Char.ofNat b :: utf8DecodeAux fuel rest := by
  conv_lhs => rw [utf8DecodeAux.eq_def]
  simp [h]

lemma utf8DecodeAux_two (fuel b1 b2 : Nat) (rest : List Nat)
    (h1 : 194 ≤ b1) (h2 : b1 < 224) (hc : isCont b2 = true) :
    utf8DecodeAux (fuel + 1) (b1 :: b2 :: rest) =
      Char.ofNat ((b1 - 192) * 64 + (b2 - 128)) :: utf8DecodeAux fuel rest := by
  conv_lhs => rw [utf8DecodeAux.eq_def]
  simp [hc, show ¬b1 < 128 from by omega, show 194 ≤ b1 ∧ b1 < 224 from ⟨h1, h2⟩]

lemma utf8DecodeAux_three (fuel b1 b2 b3 : Nat) (rest : List Nat)
    (h1 : 224 ≤ b1) (h2 : b1 < 240) (hc2 : isCont b2 = true) (hc3 : isCont b3 = true)
    (hlow : 2048 ≤ (b1 - 224) * 4096 + (b2 - 128) * 64 + (b3 - 128))
    (hsur : ¬(55296 ≤ (b1 - 224) * 4096 + (b2 - 128) * 64 + (b3 - 128) ∧
      (b1 - 224) * 4096 + (b2 - 128) * 64 + (b3 - 128) < 57344)) :
    utf8DecodeAux (fuel + 1) (b1 :: b2 :: b3 :: rest) =
      Char.ofNat ((b1 - 224) * 4096 + (b2 - 128) * 64 + (b3 - 128)) ::
        utf8DecodeAux fuel rest := by
  conv_lhs => rw [utf8DecodeAux.eq_def]
  simp [hc2, hc3, hlow, hsur, show ¬b1 < 128 from by omega,
    show ¬(194 ≤ b1 ∧ b1 < 224) from by omega, show 224 ≤ b1 ∧ b1 < 240 from ⟨h1, h2⟩]

lemma utf8DecodeAux_four (fuel b1 b2 b3 b4 : Nat) (rest : List Nat)
    (h1 : 240 ≤ b1) (h2 : b1 < 245) (hc2 : isCont b2 = true) (hc3 : isCont b3 = true)
    (hc4 : isCont b4 = true)
    (hlow : 65536 ≤ (b1 - 240) * 262144 + (b2 - 128) * 4096 + (b3 - 128) * 64 + (b4 - 128))
    (hhigh : (b1 - 240) * 262144 + (b2 - 128) * 4096 + (b3 - 128) * 64 + (b4 - 128) < 1114112) :
    utf8DecodeAux (fuel + 1) (b1 :: b2 :: b3 :: b4 :: rest) =
      Char.ofNat ((b1 - 240) * 262144 + (b2 - 128) * 4096 + (b3 - 128) * 64 + (b4 - 128)) ::
        utf8DecodeAux fuel rest := by
  conv_lhs => rw [utf8DecodeAux.eq_def]
  simp [hc2, hc3, hc4, hlow, hhigh, show ¬b1 < 128 from by omega,
    show ¬(194 ≤ b1 ∧ b1 < 224) from by omega, show ¬(224 ≤ b1 ∧ b1 < 240) from by omega,
    show 240 ≤ b1 ∧ b1 < 245 from ⟨h1, h2⟩]

lemma utf8DecodeAux_encodeChar (c : Char) (bs : List Nat) (fuel : Nat) :
    utf8DecodeAux (fuel + 1) (utf8EncodeChar c ++ bs) = c :: utf8DecodeAux fuel bs := by
  have hval := char_valid_range c
  unfold utf8EncodeChar
  simp only
  split_ifs with h1 h2 h3
  · show utf8DecodeAux (fuel + 1) (c.toNat :: bs) = c :: utf8DecodeAux fuel bs
    rw [utf8DecodeAux_ascii _ _ _ h1, Char.ofNat_toNat]
  · show utf8DecodeAux (fuel + 1)
        ((192 + c.toNat / 64) :: (128 + c.toNat % 64) :: bs) = c :: utf8DecodeAux fuel bs
    rw [utf8DecodeAux_two _ _ _ _ (by omega) (by omega)
      (isCont_true _ (by omega) (by omega))]
    rw [show (192 + c.toNat / 64 - 192) * 64 + (128 + c.toNat % 64 - 128) = c.toNat
      from by omega, Char.ofNat_toNat]
  · show utf8DecodeAux (fuel + 1)
        ((224 + c.toNat / 4096) :: (128 + c.toNat / 64 % 64) :: (128 + c.toNat % 64) :: bs) =
        c :: utf8DecodeAux fuel bs
    rw [utf8DecodeAux_three _ _ _ _ _ (by omega) (by omega)
      (isCont_true _ (by omega) (by omega)) (isCont_true _ (by omega) (by omega))
      (by omega) (by omega)]
    rw [show (224 + c.toNat / 4096 - 224) * 4096 + (128 + c.toNat / 64 % 64 - 128) * 64 +
        (128 + c.toNat % 64 - 128) = c.toNat from by omega, Char.ofNat_toNat]
  · show utf8DecodeAux (fuel + 1)
        ((240 + c.toNat / 262144) :: (128 + c.toNat / 4096 % 64) :: (128 + c.toNat / 64 % 64) ::
          (128 + c.toNat % 64) :: bs) = c :: utf8DecodeAux fuel bs
    rw [utf8DecodeAux_four _ _ _ _ _ _ (by omega) (by omega)
      (isCont_true _ (by omega) (by omega)) (isCont_true _ (by omega) (by omega))
      (isCont_true _ (by omega) (by omega)) (by omega) (by omega)]
    rw [show (240 + c.toNat / 262144 - 240) * 262144 + (128 + c.toNat / 4096 % 64 - 128) *
        4096 + (128 + c.toNat / 64 % 64 - 128) * 64 + (128 + c.toNat % 64 - 128) = c.toNat
      from by omega, Char.ofNat_toNat]

lemma utf8Encode_cons (c : Char) (s : List Char) :
    utf8Encode (c :: s) = utf8EncodeChar c ++ utf8Encode s := by
  simp [utf8Encode]

lemma utf8EncodeChar_length_pos (c : Char) : 0 < (utf8EncodeChar c).length := by
  unfold utf8EncodeChar
  simp only
  split_ifs <;> simp

lemma length_le_utf8Encode (s : List Char) : s.length ≤ (utf8Encode s).length := by
  induction s with
  | nil => simp [utf8Encode]
  | cons c cs ih =>
    rw [utf8Encode_cons, List.length_append, List.length_cons]
    have := utf8EncodeChar_length_pos c
    omega

lemma utf8DecodeAux_encode (s : List Char) : ∀ fuel, s.length ≤ fuel →
    utf8DecodeAux fuel (utf8Encode s) = s := by
  induction s with
  | nil =>
    intro fuel _
    show utf8DecodeAux fuel [] = []
    cases fuel <;> rfl
  | cons c cs ih =>
    intro fuel hf
    rw [List.length_cons] at hf
    cases fuel with
    | zero => omega
    | succ fuel =>
      rw [utf8Encode_cons, utf8DecodeAux_encodeChar, ih fuel (by omega)]

lemma utf8_roundtrip (s : List Char) : utf8DecodeLossy (utf8Encode s) = s :=
  utf8DecodeAux_encode s _ (length_le_utf8Encode s)

/-! The JSON parse-of-stringify round trip. -/

lemma jsize_pos (v : JVal) : 1 ≤ jsize v := by
  cases v <;> simp [jsize]

lemma intToChars_ne_nil (n : Int) : intToChars n ≠ [] := by
  unfold intToChars
  split
  · simp
  · exact natToChars_ne_nil _

lemma jsonStringify_ne_nil (v : JVal) : jsonStringify v ≠ [] := by
  cases v with
  | null => simp [jsonStringify]
  | bool b => cases b <;> simp [jsonStringify]
  | num n => exact intToChars_ne_nil n
  | str s => simp [jsonStringify, quoteString]
  | arr xs => cases xs <;> simp [jsonStringify]
  | obj kvs =>
    cases kvs with
    | nil => simp [jsonStringify]
    | cons kv rest => obtain ⟨k, v⟩ := kv; simp [jsonStringify]

mutual

theorem jsize_le_length (v : JVal) : jsize v ≤ (jsonStringify v).length := by
  cases v with
  | null => simp [jsize, jsonStringify]
  | bool b => cases b <;> simp [jsize, jsonStringify]
  | num n =>
    have h := intToChars_ne_nil n
    have : 0 < (intToChars n).length := List.length_pos.mpr h
    simp only [jsize, jsonStringify]
    omega
  | str s =>
    simp [jsize, jsonStringify, quoteString]
  | arr xs =>
    cases xs with
    | nil => simp [jsize, jsizeItems, jsonStringify]
    | cons x rest =>
      have h1 := jsize_le_length x
      have h2 := jsizeItems_le_length rest
      simp only [jsize, jsizeItems, jsonStringify, List.length_append, List.length_cons]
      omega
  | obj kvs =>
    cases kvs with
    | nil => simp [jsize, jsizeMembers, jsonStringify]
    | cons kv rest =>
      obtain ⟨k, v⟩ := kv
      have h1 := jsize_le_length v
      have h2 := jsizeMembers_le_length rest
      simp only [jsize, jsizeMembers, jsonStringify, List.length_append, List.length_cons]
      omega

theorem jsizeItems_le_length (xs : List JVal) : jsizeItems xs ≤ (itemsRest xs).length := by
  cases xs with
  | nil => simp [jsizeItems, itemsRest]
  | cons x rest =>
    have h1 := jsize_le_length x
    have h2 := jsizeItems_le_length rest
    simp only [jsizeItems, itemsRest, List.length_append, List.length_cons]
    omega

theorem jsizeMembers_le_length (kvs : List (List Char × JVal)) :
    jsizeMembers kvs ≤ (membersRest kvs).length := by
  cases kvs with
  | nil => simp [jsizeMembers, membersRest]
  | cons kv rest =>
    obtain ⟨k, v⟩ := kv
    have h1 := jsize_le_length v
    have h2 := jsizeMembers_le_length rest
    simp only [jsizeMembers, membersRest, List.length_append, List.length_cons]
    omega

end

lemma parseVal_cons (fuel : Nat) (c : Char) (rest : List Char) :
    parseVal (fuel + 1) (c :: rest) =
      (if c = 'n' then (expectChars ['u', 'l', 'l'] rest).map fun r => (JVal.null, r)
       else if c = 't' then (expectChars ['r', 'u', 'e'] rest).map fun r => (JVal.bool true, r)
       else if c = 'f' then
         (expectChars ['a', 'l', 's', 'e'] rest).map fun r => (JVal.bool false, r)
       else if c = quoteChar then (parseStringBody rest).map fun p => (JVal.str p.1, p.2)
       else if c = '[' then
         if rest.head? = some ']' then some (JVal.arr [], rest.tail)
         else
           (parseVal fuel rest).bind fun p =>
             (parseArrTail fuel p.2).map fun q => (JVal.arr (p.1 :: q.1), q.2)
       else if c = lbraceChar then
         match rest with
         | [] => none
         | c2 :: r0 =>
           if c2 = rbraceChar then some (JVal.obj [], r0)
           else if c2 = quoteChar then
             (parseStringBody r0).bind fun pk =>
               if pk.2.head? = some ':' then
                 (parseVal fuel pk.2.tail).bind fun pv =>
                   (parseObjTail fuel pv.2).map fun pt =>
                     (JVal.obj ((pk.1, pv.1) :: pt.1), pt.2)
               else none
           else none
       else if c = '-' ∨ isDigitChar c then
         (parseNumber (c :: rest)).map fun p => (JVal.num p.1, p.2)
       else none) := rfl

lemma parseArrTail_cons (fuel : Nat) (c : Char) (r : List Char) :
    parseArrTail (fuel + 1) (c :: r) =
      (if c = ']' then some ([], r)
       else if c = ',' then
         (parseVal fuel r).bind fun p =>
           (parseArrTail fuel p.2).map fun q => (p.1 :: q.1, q.2)
       else none) := rfl

lemma parseObjTail_cons (fuel : Nat) (c : Char) (r : List Char) :
    parseObjTail (fuel + 1) (c :: r) =
      (if c = rbraceChar then some ([], r)
       else if c = ',' then
         match r with
         | [] => none
         | c2 :: r0 =>
           if c2 = quoteChar then
             (parseStringBody r0).bind fun pk =>
               if pk.2.head? = some ':' then
                 (parseVal fuel pk.2.tail).bind fun pv =>
                   (parseObjTail fuel pv.2).map fun pt => ((pk.1, pv.1) :: pt.1, pt.2)
               else none
           else none
       else none) := rfl

lemma digit_not_special (c : Char) (h : isDigitChar c = true) :
    ¬c = 'n' ∧ ¬c = 't' ∧ ¬c = 'f' ∧ ¬c = quoteChar ∧ ¬c = '[' ∧ ¬c = lbraceChar := by
  have hgen : ∀ x : Char, isDigitChar x = false → ¬c = x := by
    intro x hx he
    rw [he, hx] at h
    exact Bool.false_ne_true h
  exact ⟨hgen _ (by decide), hgen _ (by decide), hgen _ (by decide), hgen _ (by decide),
    hgen _ (by decide), hgen _ (by decide)⟩

lemma intToChars_head (n : Int) :
    ∃ c cs, intToChars n = c :: cs ∧ (c = '-' ∨ isDigitChar c = true) := by
  unfold intToChars
  split
  · exact ⟨'-', natToChars n.natAbs, rfl, Or.inl rfl⟩
  · cases hds : natToChars n.natAbs with
    | nil => exact absurd hds (natToChars_ne_nil _)
    | cons c cs =>
      refine ⟨c, cs, rfl, Or.inr ?_⟩
      have := natToChars_all_digits n.natAbs c
      rw [hds] at this
      exact this (List.mem_cons_self _ _)

lemma headNotDigit_itemsRest (rest : List JVal) (r : List Char) :
    headNotDigit (itemsRest rest ++ ']' :: r) := by
  cases rest with
  | nil => exact headNotDigit_cons _ _ (by decide)
  | cons y ys =>
    rw [show itemsRest (y :: ys) ++ ']' :: r =
        ',' :: (jsonStringify y ++ itemsRest ys ++ ']' :: r) from by simp [itemsRest]]
    exact headNotDigit_cons _ _ (by decide)

lemma headNotDigit_membersRest (rest : List (List Char × JVal)) (r : List Char) :
    headNotDigit (membersRest rest ++ rbraceChar :: r) := by
  cases rest with
  | nil => exact headNotDigit_cons _ _ (by decide)
  | cons kv ys =>
    obtain ⟨k, v⟩ := kv
    rw [show membersRest ((k, v) :: ys) ++ rbraceChar :: r =
        ',' :: (quoteString k ++ ':' :: jsonStringify v ++ membersRest ys ++ rbraceChar :: r)
      from by simp [membersRest]]
    exact headNotDigit_cons _ _ (by decide)

lemma jsonStringify_head_ne_rbracket (v : JVal) (c : Char) (cs : List Char)
    (h : jsonStringify v = c :: cs) : c ≠ ']' := by
  cases v with
  | null =>
    injection h with h1 h2
    rw [← h1]
    decide
  | bool b =>
    cases b <;> injection h with h1 h2 <;> rw [← h1] <;> decide
  | num n =>
    obtain ⟨c2, cs2, hds, hcase⟩ := intToChars_head n
    rw [show jsonStringify (.num n) = intToChars n from rfl, hds] at h
    injection h with h1 h2
    rw [← h1]
    rcases hcase with hm | hd
    · rw [hm]
      decide
    · intro he
      rw [he] at hd
      exact absurd hd (by decide)
  | str s =>
    rw [show jsonStringify (.str s) = quoteChar :: (escapeString s ++ [quoteChar]) from by
      simp [jsonStringify, quoteString]] at h
    injection h with h1 h2
    rw [← h1]
    decide
  | arr xs =>
    cases xs with
    | nil =>
      injection h with h1 h2
      rw [← h1]
      decide
    | cons x rest =>
      rw [show jsonStringify (.arr (x :: rest)) =
          '[' :: ((jsonStringify x ++ itemsRest rest) ++ [']']) from by simp [jsonStringify]] at h
      injection h with h1 h2
      rw [← h1]
      decide
  | obj kvs =>
    cases kvs with
    | nil =>
      injection h with h1 h2
      rw [← h1]
      decide
    | cons kv rest =>
      obtain ⟨k, v⟩ := kv
      rw [show jsonStringify (.obj ((k, v) :: rest)) =
          lbraceChar :: ((quoteString k ++ ':' :: jsonStringify v ++ membersRest rest) ++
            [rbraceChar]) from by simp [jsonStringify]] at h
      injection h with h1 h2
      rw [← h1]
      decide

set_option maxHeartbeats 2000000

mutual

theorem parseVal_stringify (v : JVal) : ∀ fuel r, jsize v ≤ fuel → headNotDigit r →
    parseVal fuel (jsonStringify v ++ r) = some (v, r) := by
  intro fuel r hf hr
  cases fuel with
  | zero =>
    have := jsize_pos v
    omega
  | succ fuel =>
    cases v with
    | null =>
      show parseVal (fuel + 1) (['n', 'u', 'l', 'l'] ++ r) = some (.null, r)
      simp only [List.cons_append, List.nil_append]
      rw [parseVal_cons]
      simp +decide [expectChars]
    | bool b =>
      cases b with
      | true =>
        show parseVal (fuel + 1) (['t', 'r', 'u', 'e'] ++ r) = some (.bool true, r)
        simp only [List.cons_append, List.nil_append]
        rw [parseVal_cons]
        simp +decide [expectChars]
      | false =>
        show parseVal (fuel + 1) (['f', 'a', 'l', 's', 'e'] ++ r) =
          some (.bool false, r)
        simp only [List.cons_append, List.nil_append]
        rw [parseVal_cons]
        simp +decide [expectChars]
    | num n =>
      obtain ⟨c, cs, hds, hcase⟩ := intToChars_head n
      show parseVal (fuel + 1) (intToChars n ++ r) = some (.num n, r)
      rw [hds]
      show parseVal (fuel + 1) (c :: (cs ++ r)) = some (.num n, r)
      rw [parseVal_cons]
      rcases hcase with hminus | hdig
      · subst hminus
        rw [if_neg (by decide), if_neg (by decide), if_neg (by decide), if_neg (by decide),
          if_neg (by decide), if_neg (by decide), if_pos (Or.inl rfl)]
        rw [show ('-' :: (cs ++ r) : List Char) = intToChars n ++ r from by rw [hds]; rfl]
        rw [parseNumber_intToChars n r hr]
        rfl
      · obtain ⟨e1, e2, e3, e4, e5, e6⟩ := digit_not_special c hdig
        rw [if_neg e1, if_neg e2, if_neg e3, if_neg e4, if_neg e5, if_neg e6,
          if_pos (Or.inr hdig)]
        rw [show (c :: (cs ++ r) : List Char) = intToChars n ++ r from by rw [hds]; rfl]
        rw [parseNumber_intToChars n r hr]
        rfl
    | str s =>
      show parseVal (fuel + 1) (quoteString s ++ r) = some (.str s, r)
      rw [show quoteString s ++ r = quoteChar :: (escapeString s ++ quoteChar :: r) from by
        simp [quoteString]]
      rw [parseVal_cons]
      simp +decide [parseStringBody_escapeString]
    | arr xs =>
      cases xs with
      | nil =>
        show parseVal (fuel + 1) ('[' :: ']' :: r) = some (.arr [], r)
        rw [parseVal_cons]
        simp +decide
      | cons x rest =>
        show parseVal (fuel + 1) (jsonStringify (.arr (x :: rest)) ++ r) =
          some (.arr (x :: rest), r)
        rw [show jsonStringify (.arr (x :: rest)) ++ r =
            '[' :: (jsonStringify x ++ (itemsRest rest ++ ']' :: r)) from by
          simp [jsonStringify]]
        rw [parseVal_cons]
        rw [if_neg (by decide), if_neg (by decide), if_neg (by decide), if_neg (by decide),
          if_pos rfl]
        have hx : parseVal fuel (jsonStringify x ++ (itemsRest rest ++ ']' :: r)) =
            some (x, itemsRest rest ++ ']' :: r) := by
          refine parseVal_stringify x fuel _ ?_ (headNotDigit_itemsRest rest r)
          simp only [jsize, jsizeItems] at hf
          omega
        have htail : parseArrTail fuel (itemsRest rest ++ ']' :: r) = some (rest, r) := by
          refine parseArrTail_items rest fuel r ?_
          simp only [jsize, jsizeItems] at hf
          omega
        have hhead : (jsonStringify x ++ (itemsRest rest ++ ']' :: r)).head? ≠ some ']' := by
          cases hsx : jsonStringify x with
          | nil => exact absurd hsx (jsonStringify_ne_nil x)
          | cons c0 cs0 =>
            have hne := jsonStringify_head_ne_rbracket x c0 cs0 hsx
            simp [hne]
        rw [if_neg hhead, hx]
        simp [htail]
    | obj kvs =>
      cases kvs with
      | nil =>
        show parseVal (fuel + 1) (lbraceChar :: rbraceChar :: r) = some (.obj [], r)
        rw [parseVal_cons]
        simp +decide
      | cons kv rest =>
        obtain ⟨k, v⟩ := kv
        show parseVal (fuel + 1) (jsonStringify (.obj ((k, v) :: rest)) ++ r) =
          some (.obj ((k, v) :: rest), r)
        rw [show jsonStringify (.obj ((k, v) :: rest)) ++ r =
            lbraceChar :: quoteChar :: (escapeString k ++ quoteChar ::
              (':' :: (jsonStringify v ++ (membersRest rest ++ rbraceChar :: r)))) from by
          simp [jsonStringify, quoteString]]
        rw [parseVal_cons]
        have hv : parseVal fuel (jsonStringify v ++ (membersRest rest ++ rbraceChar :: r)) =
            some (v, membersRest rest ++ rbraceChar :: r) := by
          refine parseVal_stringify v fuel _ ?_ (headNotDigit_membersRest rest r)
          simp only [jsize, jsizeMembers] at hf
          omega
        have htail : parseObjTail fuel (membersRest rest ++ rbraceChar :: r) =
            some (rest, r) := by
          refine parseObjTail_members rest fuel r ?_
          simp only [jsize, jsizeMembers] at hf
          omega
        simp +decide [parseStringBody_escapeString, hv, htail]

theorem parseArrTail_items (xs : List JVal) : ∀ fuel r, jsizeItems xs < fuel →
    parseArrTail fuel (itemsRest xs ++ ']' :: r) = some (xs, r) := by
  intro fuel r hf
  cases fuel with
  | zero => omega
  | succ fuel =>
    cases xs with
    | nil =>
      show parseArrTail (fuel + 1) (']' :: r) = some ([], r)
      rw [parseArrTail_cons]
      simp
    | cons x rest =>
      rw [show itemsRest (x :: rest) ++ ']' :: r =
          ',' :: (jsonStringify x ++ (itemsRest rest ++ ']' :: r)) from by simp [itemsRest]]
      rw [parseArrTail_cons]
      have hx : parseVal fuel (jsonStringify x ++ (itemsRest rest ++ ']' :: r)) =
          some (x, itemsRest rest ++ ']' :: r) := by
        refine parseVal_stringify x fuel _ ?_ (headNotDigit_itemsRest rest r)
        simp only [jsizeItems] at hf
        omega
      have htail : parseArrTail fuel (itemsRest rest ++ ']' :: r) = some (rest, r) := by
        refine parseArrTail_items rest fuel r ?_
        simp only [jsizeItems] at hf
        omega
      simp +decide [hx, htail]

theorem parseObjTail_members (kvs : List (List Char × JVal)) : ∀ fuel r,
    jsizeMembers kvs < fuel →
    parseObjTail fuel (membersRest kvs ++ rbraceChar :: r) = some (kvs, r) := by
  intro fuel r hf
  cases fuel with
  | zero => omega
  | succ fuel =>
    cases kvs with
    | nil =>
      show parseObjTail (fuel + 1) (rbraceChar :: r) = some ([], r)
      rw [parseObjTail_cons]
      simp
    | cons kv rest =>
      obtain ⟨k, v⟩ := kv
      rw [show membersRest ((k, v) :: rest) ++ rbraceChar :: r =
          ',' :: quoteChar :: (escapeString k ++ quoteChar ::
            (':' :: (jsonStringify v ++ (membersRest rest ++ rbraceChar :: r)))) from by
        simp [membersRest, quoteString]]
      rw [parseObjTail_cons]
      have hv : parseVal fuel (jsonStringify v ++ (membersRest rest ++ rbraceChar :: r)) =
          some (v, membersRest rest ++ rbraceChar :: r) := by
        refine parseVal_stringify v fuel _ ?_ (headNotDigit_membersRest rest r)
        simp only [jsizeMembers] at hf
        omega
      have htail : parseObjTail fuel (membersRest rest ++ rbraceChar :: r) =
          some (rest, r) := by
        refine parseObjTail_members rest fuel r ?_
        simp only [jsizeMembers] at hf
        omega
      simp +decide [parseStringBody_escapeString, hv, htail]

end

set_option maxHeartbeats 400000

lemma jsonParse_stringify (v : JVal) : jsonParse (jsonStringify v) = some v := by
  unfold jsonParse
  have h := parseVal_stringify v ((jsonStringify v).length + 1) []
    (by have := jsize_le_length v; omega) headNotDigit_nil
  rw [List.append_nil] at h
  rw [h]

lemma decodeData_frame (e : Nat) (bs : List Nat) (h : 0 < bs.length) :
    decodeData (e :: bs.length / 256 :: bs.length % 256 :: bs) =
      (match jsonParse (utf8DecodeLossy bs) with
       | some v => .ok v
       | none => .error ()) := by
  unfold decodeData
  simp only [List.getD_cons_succ, List.getD_cons_zero]
  rw [show 256 * (bs.length / 256) + bs.length % 256 = bs.length from by omega]
  rw [if_pos h]
  rw [show ((e :: bs.length / 256 :: bs.length % 256 :: bs).drop 3).take bs.length = bs from by
    simp]

/-- C3: wire-codec round trip.  For every event code up to 255 and every
payload value whose UTF-8 JSON serialization is at most 65535 bytes (the
bound under which the length field's Buffer write does not throw),
decoding the frame produced by encode yields exactly the event code and
the payload (an absent payload decoding to null); moreover byte 0 of the
frame is the event code, bytes 1 and 2 hold the payload byte length in
big-endian unsigned 16-bit form, and the bytes after the header are
exactly the UTF-8 JSON serialization, which parses back to the value that
was serialized. -/
theorem wire_roundtrip (e : Nat) (v : JVal) (he : e ≤ 255)
    (hlen : (utf8Encode (jsonStringify v)).length ≤ 65535) :
    wireDecode (encode e (some v)) = some (e, v) ∧
    wireDecode (encode e none) = some (e, .null) ∧
    (encode e (some v)).getD 0 0 = e ∧
    256 * (encode e (some v)).getD 1 0 + (encode e (some v)).getD 2 0 =
      (utf8Encode (jsonStringify v)).length ∧
    (encode e (some v)).drop 3 = utf8Encode (jsonStringify v) := by
  have hpos : 0 < (utf8Encode (jsonStringify v)).length := by
    have h1 := jsonStringify_ne_nil v
    have h2 := length_le_utf8Encode (jsonStringify v)
    have h3 : 0 < (jsonStringify v).length := List.length_pos.mpr h1
    omega
  have henc : encode e (some v) = e :: (utf8Encode (jsonStringify v)).length / 256 ::
      (utf8Encode (jsonStringify v)).length % 256 :: utf8Encode (jsonStringify v) := rfl
  refine ⟨?_, rfl, ?_, ?_, ?_⟩
  · rw [henc]
    unfold wireDecode
    rw [if_neg (by simp)]
    rw [decodeData_frame e _ hpos, utf8_roundtrip (jsonStringify v), jsonParse_stringify v]
    rfl
  · rw [henc]
    rfl
  · rw [henc]
    simp only [List.getD_cons_succ, List.getD_cons_zero]
    omega
  · rw [henc]
    rfl

/-- C3 witness: a concrete frame for event 4 carrying an object payload
round-trips, and its header fields are as claimed. -/
theorem wire_roundtrip_witness :
    wireDecode (encode 4 (some (JVal.obj [(['i', 'd'], JVal.num 7)]))) =
      some (4, JVal.obj [(['i', 'd'], JVal.num 7)]) ∧
    wireDecode (encode 4 none) = some (4, .null) ∧
    (encode 4 (some (JVal.obj [(['i', 'd'], JVal.num 7)]))).getD 0 0 = 4 ∧
    256 * (encode 4 (some (JVal.obj [(['i', 'd'], JVal.num 7)]))).getD 1 0 +
      (encode 4 (some (JVal.obj [(['i', 'd'], JVal.num 7)]))).getD 2 0 =
      (utf8Encode (jsonStringify (JVal.obj [(['i', 'd'], JVal.num 7)]))).length ∧
    (encode 4 (some (JVal.obj [(['i', 'd'], JVal.num 7)]))).drop 3 =
      utf8Encode (jsonStringify (JVal.obj [(['i', 'd'], JVal.num 7)])) :=
  wire_roundtrip 4 (JVal.obj [(['i', 'd'], JVal.num 7)]) (by omega) (by decide)

end CrewLink
